import Mathlib

/-!
# Task queue engine (task3/task3.2/main.cpp)

A shallow embedding of the `Server` / `Client` / `Test::IsCorrect` code of
`src/task3/task3.2/main.cpp`.

* The element type `T` of the templates (instantiated with `double` in `main`) is kept
  abstract; the library functions used on it (`std::sin`, `std::sqrt`, `std::pow`,
  subtraction, comparison, conversion from `int`, stream formatting and extraction)
  are the fields of `Arith T`.
* `size_t` is a natural number modulo `2 ^ 64`.
-/

namespace TaskQueue

/-- The `enum Task { Sin, Sqrt, Pow }` of the source. -/
inductive Task where
  | Sin
  | Sqrt
  | Pow
  deriving DecidableEq, Repr

/-- Outcome of a formatted numeric extraction `is >> v` applied to the characters that
follow the skipped whitespace: either a value and the number of characters consumed, or a
failure (`failbit`) together with the value that the extraction stores in `v`. -/
inductive Extracted (α : Type) where
  | ok (v : α) (consumed : Nat)
  | bad (stored : α)

/-- Library operations that the program uses on the numeric template parameter `T`
and on `size_t` streams. -/
structure Arith (T : Type) where
  /-- Implicit conversion `int -> T`. -/
  ofInt : Int → T
  /-- The function `std::sin`. -/
  sin : T → T
  /-- The function `std::sqrt`. -/
  sqrt : T → T
  /-- The function `std::pow`. -/
  pow : T → T → T
  /-- Subtraction `a - b` on `T`. -/
  sub : T → T → T
  /-- Comparison `a < b` on `T` (and `a > b` is `lt b a`). -/
  lt : T → T → Bool
  /-- The literal `0.1`. -/
  tol : T
  /-- Output `os << std::fixed << std::setprecision(5) << v`. -/
  fmt : T → String
  /-- Extraction `is >> v` for `v` of type `T`. -/
  parse : List Char → Extracted T
  /-- Output `os << i` for `i` of type `size_t`. -/
  fmtSize : Nat → String
  /-- Extraction `is >> id` for `id` of type `size_t`. -/
  parseSize : List Char → Extracted Nat

/-- Number of values of `size_t`. -/
def SIZE_MOD : Nat := 2 ^ 64

/-- Template `fun_sin(x, y)`. -/
def fun_sin {T : Type} (ops : Arith T) (x _y : T) : T := ops.sin x

/-- Template `fun_sqrt(x, y)`. -/
def fun_sqrt {T : Type} (ops : Arith T) (x _y : T) : T := ops.sqrt x

/-- Template `fun_pow(x, y)`. -/
def fun_pow {T : Type} (ops : Arith T) (x y : T) : T := ops.pow x y

/-- The data members of `Server<T>` that the operations read and write
(`queueMutex` and `serverThread` carry no data). -/
structure Server (T : Type) where
  taskQueue : List (Task × T × T)
  taskId : Nat
  results : List (String × T × T × T)

/-- Constructor `Server() : taskId{}, serverThread{} {}`. -/
def Server.new (T : Type) : Server T :=
  { taskQueue := [], taskId := 0, results := [] }

/-- The `switch (get<0>(task))` of `Server::Work`: the tuple pushed onto `results`. -/
def resultOf {T : Type} (ops : Arith T) (task : Task × T × T) : String × T × T × T :=
  let x := task.2.1
  let y := task.2.2
  match task.1 with
  | Task.Sin => ("Sin", fun_sin ops x y, x, y)
  | Task.Sqrt => ("Sqrt", fun_sqrt ops x y, x, y)
  | Task.Pow => ("Pow", fun_pow ops x y, x, y)

/-- Lines 91-106 of `Server::Work` on a non-empty queue: read `taskQueue.front()`,
compute, `results.push_back`. The queue is not touched. -/
def WorkAppend {T : Type} (ops : Arith T) (s : Server T) : Server T :=
  match s.taskQueue with
  | [] => s
  | task :: _ => { s with results := s.results ++ [resultOf ops task] }

/-- Lines 107-108 of `Server::Work`: `taskQueue.pop()`. -/
def WorkPop {T : Type} (s : Server T) : Server T :=
  { s with taskQueue := s.taskQueue.tail }

/-- One pass through the body of the `while` loop of `Server::Work`
(the stop token was not set at the loop test). -/
def WorkIter {T : Type} (ops : Arith T) (s : Server T) : Server T :=
  match s.taskQueue with
  | [] => s
  | _ :: _ => WorkPop (WorkAppend ops s)

/-- Loop `while (!stopToken.stop_requested())` of `Server::Work`. The list holds the values
that `stop_requested()` returns at the successive loop tests; `none` when the list ends
before a test returned `true` (the loop is still running). -/
def Work {T : Type} (ops : Arith T) : List Bool → Server T → Option (Server T)
  | [], _ => none
  | true :: _, s => some s
  | false :: stops, s => Work ops stops (WorkIter ops s)

/-- Member `size_t AddTask(Task taskType, T x, T y)`: the new state and the returned id. -/
def AddTask {T : Type} (s : Server T) (taskType : Task) (x y : T) : Server T × Nat :=
  ({ s with taskQueue := s.taskQueue ++ [(taskType, x, y)],
            taskId := (s.taskId + 1) % SIZE_MOD }, s.taskId)

/-- A call on the server: a producer calling `AddTask`, or the worker thread completing
one pass of its loop body. -/
inductive Event (T : Type) where
  | add (taskType : Task) (x y : T)
  | iter

/-- The server after a sequence of calls, with the ids that the `AddTask` calls returned. -/
def runEvents {T : Type} (ops : Arith T) : List (Event T) → Server T → Server T × List Nat
  | [], s => (s, [])
  | Event.add k x y :: evs, s =>
      let r := AddTask s k x y
      let rest := runEvents ops evs r.1
      (rest.1, r.2 :: rest.2)
  | Event.iter :: evs, s => runEvents ops evs (WorkIter ops s)

/-- The tasks submitted by a sequence of calls, in call order. -/
def addedTasks {T : Type} : List (Event T) → List (Task × T × T)
  | [] => []
  | Event.add k x y :: evs => (k, x, y) :: addedTasks evs
  | Event.iter :: evs => addedTasks evs

/-- The name that `Server::Work` stores for a task kind. -/
def nameOf : Task → String
  | Task.Sin => "Sin"
  | Task.Sqrt => "Sqrt"
  | Task.Pow => "Pow"

/-- Number of tasks of kind `k` in a sequence of tasks. -/
def countKind {T : Type} (k : Task) (ts : List (Task × T × T)) : Nat :=
  ts.countP (fun t => decide (t.1 = k))

/-- Number of result entries carrying the name of kind `k`. -/
def countName {T : Type} (k : Task) (rs : List (String × T × T × T)) : Nat :=
  rs.countP (fun e => decide (e.1 = nameOf k))

/-- Number of `AddTask` calls in a sequence of calls. -/
def addCount {T : Type} (evs : List (Event T)) : Nat := (addedTasks evs).length

/-- The tasks that producer `p` submitted, in the order of its calls. A sequence of calls
tagged with the calling producer is one interleaving of the producers. -/
def callsOf {α : Type} (p : Nat) (calls : List (Nat × α)) : List α :=
  (calls.filter (fun c => decide (c.1 = p))).map Prod.snd

/-- The entries of `rs` at the positions of the calls made by producer `p`. -/
def attributed {α β : Type} (p : Nat) (calls : List (Nat × α)) (rs : List β) : List β :=
  ((calls.zip rs).filter (fun c => decide (c.1.1 = p))).map Prod.snd

/-- The `AddTask` call submitting a task. -/
def Event.ofTask {T : Type} (t : Task × T × T) : Event T := Event.add t.1 t.2.1 t.2.2

/-! ### The validator `Test::IsCorrect` -/

/-- An input stream: the unread characters and the `failbit`. -/
structure IStream where
  chars : List Char
  fail : Bool

/-- The function `isspace` of the "C" locale: space, and `\t \n \v \f \r`. -/
def isspace (c : Char) : Bool :=
  c.toNat == 32 || (decide (9 ≤ c.toNat) && decide (c.toNat ≤ 13))

/-- Whitespace skipping done by the sentry of a formatted extraction. -/
def skipws (cs : List Char) : List Char := cs.dropWhile isspace

/-- Formatted extraction `is >> v` of a number. A stream that has failed is left alone and
`v` keeps its value; so it is when only whitespace is left, and the stream fails. -/
def extract {α : Type} (p : List Char → Extracted α) (st : IStream) (old : α) : IStream × α :=
  if st.fail then (st, old)
  else
    match skipws st.chars with
    | [] => ({ chars := [], fail := true }, old)
    | c :: cs =>
      match p (c :: cs) with
      | Extracted.ok v n => ({ chars := (c :: cs).drop n, fail := false }, v)
      | Extracted.bad stored => ({ chars := c :: cs, fail := true }, stored)

/-- Extraction `is >> str` of a `std::string`: the characters up to the next whitespace. -/
def extractString (st : IStream) (old : String) : IStream × String :=
  if st.fail then (st, old)
  else
    match skipws st.chars with
    | [] => ({ chars := [], fail := true }, old)
    | c :: cs =>
      ({ chars := (c :: cs).dropWhile (fun d => !isspace d), fail := false },
       String.mk ((c :: cs).takeWhile (fun d => !isspace d)))

/-- Lookup `map[key]` of `std::unordered_map<std::string, Task>`: a missing key is inserted
with the value-initialised `Task`, which is `Sin` (the enumerator 0). -/
def mapIndex (m : List (String × Task)) (key : String) : List (String × Task) × Task :=
  match m.lookup key with
  | some t => (m, t)
  | none => (m ++ [(key, Task.Sin)], Task.Sin)

/-- The map after `map["Sin"] = Sin; map["Sqrt"] = Sqrt; map["Pow"] = Pow;`. -/
def initialMap : List (String × Task) :=
  [("Sin", Task.Sin), ("Sqrt", Task.Sqrt), ("Pow", Task.Pow)]

/-- Local variables of `IsCorrect` (`a` is written and never read). -/
structure Vars (T : Type) where
  inputStream : IStream
  map : List (String × Task)
  id : Nat
  taskString : String
  taskType : Task
  res : T
  x : T
  y : T
  okFlag : Bool

/-- Lines 44-49 of `IsCorrect`: read one entry. -/
def readEntry {T : Type} (ops : Arith T) (v : Vars T) : Vars T :=
  let r1 := extract ops.parseSize v.inputStream v.id
  let r2 := extractString r1.1 v.taskString
  let r3 := mapIndex v.map r2.2
  if r3.2 = Task.Pow then
    let a := extract ops.parse r2.1 v.res
    let b := extract ops.parse a.1 v.x
    let c := extract ops.parse b.1 v.y
    { v with inputStream := c.1, map := r3.1, id := r1.2, taskString := r2.2,
             taskType := r3.2, res := a.2, x := b.2, y := c.2 }
  else
    let a := extract ops.parse r2.1 v.res
    let b := extract ops.parse a.1 v.x
    { v with inputStream := b.1, map := r3.1, id := r1.2, taskString := r2.2,
             taskType := r3.2, res := a.2, x := b.2 }

/-- The comparison `(d > 0.1) || (d < 0.1)` of lines 53-54, 58-59 and 63-64. -/
def offTolerance {T : Type} (ops : Arith T) (d : T) : Bool :=
  ops.lt ops.tol d || ops.lt d ops.tol

/-- The value recomputed by the `switch` of `IsCorrect` for the entry just read. -/
def recomputed {T : Type} (ops : Arith T) (v : Vars T) : T :=
  match v.taskType with
  | Task.Sin => fun_sin ops v.x (ops.ofInt 0)
  | Task.Sqrt => fun_sqrt ops v.x (ops.ofInt 0)
  | Task.Pow => fun_pow ops v.x v.y

/-- Lines 50-67 of `IsCorrect`: the `switch` that may set `okFlag`. -/
def checkEntry {T : Type} (ops : Arith T) (v : Vars T) : Vars T :=
  match v.taskType with
  | Task.Sin =>
    if offTolerance ops (ops.sub (fun_sin ops v.x (ops.ofInt 0)) v.res) then
      { v with okFlag := true } else v
  | Task.Sqrt =>
    if offTolerance ops (ops.sub (fun_sqrt ops v.x (ops.ofInt 0)) v.res) then
      { v with okFlag := true } else v
  | Task.Pow =>
    if offTolerance ops (ops.sub (fun_pow ops v.x v.y) v.res) then
      { v with okFlag := true } else v

/-- Body of the `while` loop of `IsCorrect` (lines 44-67). -/
def loopBody {T : Type} (ops : Arith T) (v : Vars T) : Vars T :=
  checkEntry ops (readEntry ops v)

/-- The loop `while (inputStream && !okFlag)` and the `return okFlag`; `none` when the
fuel is used up before the loop test fails. -/
def IsCorrectLoop {T : Type} (ops : Arith T) : Nat → Vars T → Option Bool
  | 0, _ => none
  | fuel + 1, v =>
    if !v.inputStream.fail && !v.okFlag then IsCorrectLoop ops fuel (loopBody ops v)
    else some v.okFlag

/-- Values of the variables that `IsCorrect` declares without an initialiser. -/
structure Uninit (T : Type) where
  id : Nat
  taskType : Task
  res : T
  x : T
  y : T

/-- Variables of `IsCorrect` when the loop is reached, on a stream opened on `input`. -/
def initialVars {T : Type} (u : Uninit T) (input : List Char) : Vars T :=
  { inputStream := { chars := input, fail := false }, map := initialMap, id := u.id,
    taskString := "", taskType := u.taskType, res := u.res, x := u.x, y := u.y,
    okFlag := false }

/-- Function `Test::IsCorrect<T>(inputStream)` on a freshly opened stream holding `input`.
Every pass of the loop with the stream still good consumes a character, so
`input.length + 2` loop tests are enough (`IsCorrect_returns`). -/
def IsCorrect {T : Type} (ops : Arith T) (u : Uninit T) (input : List Char) : Option Bool :=
  IsCorrectLoop ops (input.length + 2) (initialVars u input)

/-- The kind that the lookup `map[name]` of `IsCorrect` yields for a name. -/
def taskOfName (name : String) : Task :=
  if name = "Sqrt" then Task.Sqrt else if name = "Pow" then Task.Pow else Task.Sin

/-- Invariant of the map of `IsCorrect`: the three names assigned before the loop keep
their kinds, and every other key that is present was inserted by a lookup, with `Sin`. -/
def MapOk (m : List (String × Task)) : Prop :=
  (∀ key : String, m.lookup key = none ∨ m.lookup key = some (taskOfName key)) ∧
  (∀ key : String, (key = "Sin" ∨ key = "Sqrt" ∨ key = "Pow") →
    m.lookup key = some (taskOfName key))

/-- The value that `IsCorrect` recomputes for an entry of kind `k` with operands `x`, `y`. -/
def expectedOf {T : Type} (ops : Arith T) (k : Task) (x y : T) : T :=
  match k with
  | Task.Sin => ops.sin x
  | Task.Sqrt => ops.sqrt x
  | Task.Pow => ops.pow x y

/-- Stream `b` is a later state of stream `a`: nothing was put back, and `failbit` stays. -/
def IStream.After (b a : IStream) : Prop :=
  b.chars.length ≤ a.chars.length ∧ (a.fail = true → b.fail = true)

/-! ### The writer in `main` -/

/-- Body of the output loop of `main` (lines 198-208) for the entry at index `i`. -/
def writeLine {T : Type} (ops : Arith T) (i : Nat) (e : String × T × T × T) : String :=
  if e.1 = "Pow" then
    ops.fmtSize i ++ " " ++ e.1 ++ " " ++ ops.fmt e.2.1 ++ " " ++ ops.fmt e.2.2.1 ++ " "
      ++ ops.fmt e.2.2.2 ++ "\n"
  else
    ops.fmtSize i ++ " " ++ e.1 ++ " " ++ ops.fmt e.2.1 ++ " " ++ ops.fmt e.2.2.1 ++ "\n"

/-- The output loop of `main` from index `i` on (`i < res.size()`, so `i` does not wrap). -/
def writeFrom {T : Type} (ops : Arith T) : Nat → List (String × T × T × T) → String
  | _, [] => ""
  | i, e :: es => writeLine ops i e ++ writeFrom ops (i + 1) es

/-- Contents of `output.txt` written by `main` for the result vector `res`. -/
def writeLog {T : Type} (ops : Arith T) (res : List (String × T × T × T)) : String :=
  writeFrom ops 0 res

/-! ### The producer `Client::Start` -/

/-- The loop `for (int i = 0; i < N; ++i) server.AddTask(taskType, rand() % 100, rand() % 4)`.
`rand k` is the value returned by the `k`-th call of `rand()` and `c` counts the calls made;
the order in which the two arguments are evaluated is the compiler's (`xFirst`).
Returns the server and the number of `rand()` calls; `none` when the fuel is used up. -/
def StartLoop {T : Type} (ops : Arith T) (taskType : Task) (xFirst : Bool) (rand : Nat → Int)
    (N : Int) : Nat → Int → Nat → Server T → Option (Server T × Nat)
  | 0, _, _, _ => none
  | fuel + 1, i, c, s =>
    if i < N then
      let a := if xFirst then rand c else rand (c + 1)
      let b := if xFirst then rand (c + 1) else rand c
      StartLoop ops taskType xFirst rand N fuel (i + 1) (c + 2)
        (AddTask s taskType (ops.ofInt (a.tmod 100)) (ops.ofInt (b.tmod 4))).1
    else some (s, c)

/-- Thread body of `Client::Start(N)`, run to completion (`Join`). -/
def Start {T : Type} (ops : Arith T) (taskType : Task) (xFirst : Bool) (rand : Nat → Int)
    (N : Int) (s : Server T) : Option (Server T × Nat) :=
  StartLoop ops taskType xFirst rand N (N.toNat + 1) 0 0 s

/-- Arguments of the first `n` `AddTask` calls of a producer, starting at `rand()` call `c`. -/
def startArgs (xFirst : Bool) (rand : Nat → Int) : Nat → Nat → List (Int × Int)
  | 0, _ => []
  | n + 1, c =>
    ((if xFirst then rand c else rand (c + 1)).tmod 100,
     (if xFirst then rand (c + 1) else rand c).tmod 4) :: startArgs xFirst rand n (c + 2)

/-! ### Reading back what was written -/

/-- A field text that a formatted extraction can find: it begins with a non-blank character. -/
def StartsNonBlank (f : List Char) : Prop :=
  ∃ c cs, f = c :: cs ∧ isspace c = false

/-- Extraction reads back the text written for the value `v`, when whitespace follows it,
as the value `rt v` (the value rounded to the five decimals of the format). -/
def RoundTrip {T : Type} (ops : Arith T) (rt : T → T) (v : T) : Prop :=
  StartsNonBlank (ops.fmt v).data ∧
  ∀ (d : Char) (rest : List Char), isspace d = true →
    ops.parse ((ops.fmt v).data ++ d :: rest) = Extracted.ok (rt v) (ops.fmt v).data.length

/-- Extraction of a `size_t` reads back the text written for `i`, when whitespace follows. -/
def SizeRoundTrip {T : Type} (ops : Arith T) (i : Nat) : Prop :=
  StartsNonBlank (ops.fmtSize i).data ∧
  ∀ (d : Char) (rest : List Char), isspace d = true →
    ops.parseSize ((ops.fmtSize i).data ++ d :: rest)
      = Extracted.ok i (ops.fmtSize i).data.length

/-- A name that is one field of the file: not empty and without whitespace. -/
def GoodName (name : String) : Prop :=
  name.data ≠ [] ∧ ∀ c ∈ name.data, isspace c = false

/-- The entry `e`, written at index `i`, consists of fields that extraction reads back. -/
def Readable {T : Type} (ops : Arith T) (rt : T → T) (i : Nat) (e : String × T × T × T) :
    Prop :=
  SizeRoundTrip ops i ∧ GoodName e.1 ∧ RoundTrip ops rt e.2.1 ∧ RoundTrip ops rt e.2.2.1 ∧
  (e.1 = "Pow" → RoundTrip ops rt e.2.2.2)

/-- All entries of a log written from index `i` on are readable. -/
def ReadableFrom {T : Type} (ops : Arith T) (rt : T → T) :
    Nat → List (String × T × T × T) → Prop
  | _, [] => True
  | i, e :: es => Readable ops rt i e ∧ ReadableFrom ops rt (i + 1) es

/-- The `AddTask` calls of a producer of kind `taskType` with the given integer arguments. -/
def startEvents {T : Type} (ops : Arith T) (taskType : Task) (args : List (Int × Int)) :
    List (Event T) :=
  args.map (fun a => Event.add taskType (ops.ofInt a.1) (ops.ofInt a.2))

/-! ### Threads: the worker loop and the producers, statement by statement

The worker thread runs `Server::Work` and every producer thread runs a sequence of
`AddTask` calls. A step of a thread executes one statement; the program points carry the
line numbers of the source. `lock_guard` and `lock()` wait while another thread owns
`queueMutex`; a scheduler picks the thread that moves next. -/

/-- Program points of `Server::Work`. -/
inductive WPc where
  /-- Line 83, `while (!stopToken.stop_requested())`. -/
  | L83
  /-- Line 85, `std::lock_guard guard(queueMutex)`. -/
  | L85
  /-- Line 86, `if (taskQueue.empty())`. -/
  | L86
  /-- Lines 87-88, `sleep_for(...); continue;` leaving the scope of the guard. -/
  | L87
  /-- Line 90, end of the scope of the guard. -/
  | L90
  /-- Line 91, `queueMutex.lock()`. -/
  | L91
  /-- Line 92, `task = taskQueue.front()`. -/
  | L92
  /-- Line 93, `queueMutex.unlock()`. -/
  | L93
  /-- Lines 94-106, the `switch` with its `results.push_back`. -/
  | L94
  /-- Line 107, `std::lock_guard guard(queueMutex)`. -/
  | L107
  /-- Line 108, `taskQueue.pop()`. -/
  | L108
  /-- Line 109, end of the loop body and of the scope of the guard. -/
  | L109
  /-- After the loop. -/
  | done
  deriving DecidableEq, Repr

/-- Program points of `Server::AddTask`. -/
inductive PPc where
  /-- Line 124, `std::lock_guard guard(queueMutex)`. -/
  | L124
  /-- Line 125, `taskQueue.emplace(taskType, x, y)`. -/
  | L125
  /-- Line 126, `return taskId++`. -/
  | L126
  /-- Line 127, end of the scope of the guard. -/
  | L127
  deriving DecidableEq, Repr

/-- A producer thread: the calls it still has to make (the first one is in progress when
`pc` is past line 124), the value read from `taskId` by the call in progress, and the ids
returned so far. -/
structure Producer (T : Type) where
  pc : PPc
  todo : List (Task × T × T)
  ret : Nat
  ids : List Nat

/-- Shared memory and threads. Thread 0 is the worker, thread `p + 1` is producer `p`.
`enqueued` is a history variable: the tasks emplaced so far. -/
structure Sys (T : Type) where
  /-- Owner of `queueMutex`. -/
  mutex : Option Nat
  server : Server T
  /-- The stop request of the `jthread`. -/
  stop : Bool
  wpc : WPc
  /-- The local variable `task` of `Work`. -/
  task : Option (Task × T × T)
  producers : Nat → Producer T
  enqueued : List (Task × T × T)

/-- What the scheduler lets happen next. -/
inductive Choice where
  | worker
  | producer (p : Nat)
  /-- The main thread calls `Server::Stop`. -/
  | stop
  deriving DecidableEq, Repr

/-- The worker thread owns `queueMutex` at this program point. -/
def WPc.holds : WPc → Bool
  | WPc.L86 | WPc.L87 | WPc.L90 | WPc.L92 | WPc.L93 | WPc.L108 | WPc.L109 => true
  | _ => false

/-- The statement at this program point of `Work` reads or writes `taskQueue`. -/
def WPc.accesses : WPc → Bool
  | WPc.L86 | WPc.L92 | WPc.L108 => true
  | _ => false

/-- A producer owns `queueMutex` at this program point. -/
def PPc.holds : PPc → Bool
  | PPc.L124 => false
  | _ => true

/-- The statement at this program point of `AddTask` reads or writes `taskQueue` or
`taskId`. -/
def PPc.accesses : PPc → Bool
  | PPc.L125 | PPc.L126 => true
  | _ => false

/-- One statement of the worker thread. (`front()` is undefined on an empty queue; line 92
is never reached with one, see `SysInv.checked`.) -/
def stepWorker {T : Type} (ops : Arith T) (st : Sys T) : Sys T :=
  match st.wpc with
  | WPc.L83 => if st.stop then { st with wpc := WPc.done } else { st with wpc := WPc.L85 }
  | WPc.L85 =>
    match st.mutex with
    | none => { st with mutex := some 0, wpc := WPc.L86 }
    | some _ => st
  | WPc.L86 =>
    if st.server.taskQueue.isEmpty then { st with wpc := WPc.L87 }
    else { st with wpc := WPc.L90 }
  | WPc.L87 => { st with mutex := none, wpc := WPc.L83 }
  | WPc.L90 => { st with mutex := none, wpc := WPc.L91 }
  | WPc.L91 =>
    match st.mutex with
    | none => { st with mutex := some 0, wpc := WPc.L92 }
    | some _ => st
  | WPc.L92 => { st with task := st.server.taskQueue.head?, wpc := WPc.L93 }
  | WPc.L93 => { st with mutex := none, wpc := WPc.L94 }
  | WPc.L94 =>
    match st.task with
    | some t =>
      { st with server := { st.server with results := st.server.results ++ [resultOf ops t] },
                wpc := WPc.L107 }
    | none => { st with wpc := WPc.L107 }
  | WPc.L107 =>
    match st.mutex with
    | none => { st with mutex := some 0, wpc := WPc.L108 }
    | some _ => st
  | WPc.L108 => { st with server := WorkPop st.server, wpc := WPc.L109 }
  | WPc.L109 => { st with mutex := none, wpc := WPc.L83 }
  | WPc.done => st

/-- Replace the state of producer `p`. -/
def setProducer {T : Type} (st : Sys T) (p : Nat) (q : Producer T) : Sys T :=
  { st with producers := fun i => if i = p then q else st.producers i }

/-- One statement of producer `p`, which is inside `AddTask` or about to call it. -/
def stepProducer {T : Type} (st : Sys T) (p : Nat) : Sys T :=
  match (st.producers p).todo with
  | [] => st
  | t :: rest =>
    match (st.producers p).pc with
    | PPc.L124 =>
      match st.mutex with
      | none => setProducer { st with mutex := some (p + 1) } p
                  { st.producers p with pc := PPc.L125 }
      | some _ => st
    | PPc.L125 =>
      setProducer
        { st with server := { st.server with taskQueue := st.server.taskQueue ++ [t] },
                  enqueued := st.enqueued ++ [t] }
        p { st.producers p with pc := PPc.L126 }
    | PPc.L126 =>
      setProducer
        { st with server := { st.server with taskId := (st.server.taskId + 1) % SIZE_MOD } }
        p { st.producers p with pc := PPc.L127, ret := st.server.taskId }
    | PPc.L127 =>
      setProducer { st with mutex := none } p
        { pc := PPc.L124, todo := rest, ret := (st.producers p).ret,
          ids := (st.producers p).ids ++ [(st.producers p).ret] }

/-- One step of the system. -/
def stepSys {T : Type} (ops : Arith T) (st : Sys T) : Choice → Sys T
  | Choice.worker => stepWorker ops st
  | Choice.producer p => stepProducer st p
  | Choice.stop => { st with stop := true }

/-- The system after the steps chosen by a schedule. -/
def runSys {T : Type} (ops : Arith T) : List Choice → Sys T → Sys T
  | [], st => st
  | c :: cs, st => runSys ops cs (stepSys ops st c)

/-- A fresh server whose worker thread has been started, and producers that are about to
make the calls `todo p`. -/
def initSys {T : Type} (todo : Nat → List (Task × T × T)) : Sys T :=
  { mutex := none, server := Server.new T, stop := false, wpc := WPc.L83, task := none,
    producers := fun p => { pc := PPc.L124, todo := todo p, ret := 0, ids := [] },
    enqueued := [] }

/-- The part of the queue that the worker has not yet logged: between the `push_back` of
line 98-104 and the `pop` of line 108 the front task is already in the log. -/
def pendingQueue {T : Type} (st : Sys T) : List (Task × T × T) :=
  match st.wpc with
  | WPc.L107 | WPc.L108 => st.server.taskQueue.tail
  | _ => st.server.taskQueue

/-- Invariant of the system of threads. -/
structure SysInv {T : Type} (ops : Arith T) (st : Sys T) : Prop where
  worker_owns : st.mutex = some 0 ↔ st.wpc.holds = true
  producer_owns : ∀ p, st.mutex = some (p + 1) ↔ (st.producers p).pc.holds = true
  producer_busy : ∀ p, (st.producers p).pc.holds = true → (st.producers p).todo ≠ []
  checked : st.wpc = WPc.L90 ∨ st.wpc = WPc.L91 ∨ st.wpc = WPc.L92 →
    st.server.taskQueue ≠ []
  front : st.wpc = WPc.L93 ∨ st.wpc = WPc.L94 ∨ st.wpc = WPc.L107 ∨ st.wpc = WPc.L108 →
    ∃ t, st.task = some t ∧ st.server.taskQueue.head? = some t
  logged : st.wpc = WPc.L107 ∨ st.wpc = WPc.L108 →
    ∃ t, st.task = some t ∧ st.server.results.getLast? = some (resultOf ops t)
  conserved : st.server.results ++ (pendingQueue st).map (resultOf ops)
    = st.enqueued.map (resultOf ops)

/-- The state with `taskQueue` and `taskId` replaced. A statement neither reads nor writes
the queue and the counter when its step commutes with every such replacement. -/
def withShared {T : Type} (st : Sys T) (q : List (Task × T × T)) (n : Nat) : Sys T :=
  { st with server := { st.server with taskQueue := q, taskId := n } }

/-! ### A reference instance of the library operations

Decimal fixed point with five fractional digits, which is the precision of the persisted
format: `some v` stands for the number `v / 100000` and `none` for NaN. Subtraction,
comparison, formatting and extraction are exact on it. `sqrt` is exact on perfect squares
and NaN on negative arguments, `pow` is exact on integer arguments with a non-negative
exponent, `sin` is exact at `0`; where the true value is not a fixed-point number there is
no value to offer, `none` is returned, and nothing below evaluates the functions there. -/

/-- Fixed-point numbers with five decimals, and NaN. -/
abbrev Fix5 : Type := Option Int

/-- The scale `10 ^ 5` of `Fix5`. -/
def Fix5.scale : Nat := 100000

/-- Integer square root by Newton iteration, started at `r`. -/
def isqrtAux (n : Nat) : Nat → Nat → Nat
  | 0, r => r
  | fuel + 1, r =>
    if r = 0 then 0
    else
      let r2 := (r + n / r) / 2
      if r2 < r then isqrtAux n fuel r2 else r

/-- Integer square root `⌊√n⌋`. -/
def isqrt (n : Nat) : Nat := isqrtAux n 200 n

/-- Square root on `Fix5`. -/
def Fix5.sqrt : Fix5 → Fix5
  | none => none
  | some v =>
    if v < 0 then none
    else
      let n := v.toNat * Fix5.scale
      if isqrt n * isqrt n = n then some (Int.ofNat (isqrt n)) else none

/-- Power on `Fix5`, for integer base and non-negative integer exponent. -/
def Fix5.pow : Fix5 → Fix5 → Fix5
  | some x, some y =>
    if x % 100000 = 0 ∧ y % 100000 = 0 ∧ 0 ≤ y then
      some ((x / 100000) ^ (y / 100000).toNat * 100000)
    else none
  | _, _ => none

/-- Sine on `Fix5`. -/
def Fix5.sin : Fix5 → Fix5
  | some 0 => some 0
  | _ => none

/-- Subtraction on `Fix5`. -/
def Fix5.sub : Fix5 → Fix5 → Fix5
  | some a, some b => some (a - b)
  | _, _ => none

/-- Comparison `a < b` on `Fix5`; false when an operand is NaN. -/
def Fix5.lt : Fix5 → Fix5 → Bool
  | some a, some b => decide (a < b)
  | _, _ => false

/-- The digit characters of `n` padded with zeros on the left to `w` characters. -/
def padDigits (w n : Nat) : List Char :=
  List.replicate (w - (Nat.toDigits 10 n).length) (Char.ofNat 48) ++ Nat.toDigits 10 n

/-- Fixed notation with five decimals. -/
def Fix5.fmt : Fix5 → String
  | none => "nan"
  | some v =>
    String.mk ((if v < 0 then [Char.ofNat 45] else []) ++
      Nat.toDigits 10 (v.natAbs / 100000) ++ [Char.ofNat 46] ++ padDigits 5 (v.natAbs % 100000))

/-- Is `c` one of `0` ... `9`. -/
def isDigit (c : Char) : Bool := decide (48 ≤ c.toNat) && decide (c.toNat ≤ 57)

/-- The number written by a list of digit characters. -/
def digitsValue (ds : List Char) : Nat := ds.foldl (fun acc c => acc * 10 + (c.toNat - 48)) 0

/-- Extraction of an unsigned decimal number. -/
def parseSizeRef (cs : List Char) : Extracted Nat :=
  let ds := cs.takeWhile isDigit
  if ds = [] then Extracted.bad 0
  else if digitsValue ds < SIZE_MOD then Extracted.ok (digitsValue ds) ds.length
  else Extracted.bad (SIZE_MOD - 1)

/-- Extraction of a decimal number `[-]digits[.digits]` into `Fix5`; fractional digits
after the fifth are dropped. -/
def Fix5.parse (cs : List Char) : Extracted Fix5 :=
  let neg := cs.head? = some (Char.ofNat 45)
  let body := if neg then cs.tail else cs
  let ds := body.takeWhile isDigit
  let rest := body.dropWhile isDigit
  if ds = [] then Extracted.bad (some 0)
  else
    let fs := if rest.head? = some (Char.ofNat 46) then rest.tail.takeWhile isDigit else []
    let frac := digitsValue ((fs ++ List.replicate 5 (Char.ofNat 48)).take 5)
    let mag : Int := Int.ofNat (digitsValue ds * 100000 + frac)
    let used := (if neg then 1 else 0) + ds.length + (if fs = [] then 0 else fs.length + 1)
    Extracted.ok (some (if neg then -mag else mag)) used

/-- The reference instance. -/
def fixOps : Arith Fix5 where
  ofInt n := some (n * 100000)
  sin := Fix5.sin
  sqrt := Fix5.sqrt
  pow := Fix5.pow
  sub := Fix5.sub
  lt := Fix5.lt
  tol := some 10000
  fmt := Fix5.fmt
  parse := Fix5.parse
  fmtSize n := String.mk (Nat.toDigits 10 n)
  parseSize := parseSizeRef

/-- Some values for the variables that `IsCorrect` leaves uninitialised. -/
def someUninit : Uninit Fix5 :=
  { id := 7, taskType := Task.Sqrt, res := some 12345, x := none, y := some (-300000) }

/-- Three tasks, one of each kind, on which the reference instance is exact:
`pow(2, 3)`, `sqrt(9)` and `sin(0)`. -/
def sampleTasks : List (Task × Fix5 × Fix5) :=
  [(Task.Pow, some 200000, some 300000), (Task.Sqrt, some 900000, some 0),
   (Task.Sin, some 0, some 100000)]

/-- The result log of the worker for `sampleTasks`. -/
def sampleLog : List (String × Fix5 × Fix5 × Fix5) := sampleTasks.map (resultOf fixOps)

/-- The `AddTask` calls submitting `sampleTasks`, with a pass of the worker loop after the
first call. -/
def sampleEvents : List (Event Fix5) :=
  [Event.add Task.Pow (some 200000) (some 300000), Event.iter,
   Event.add Task.Sqrt (some 900000) (some 0), Event.add Task.Sin (some 0) (some 100000)]

/-- An interleaving of two producers submitting `sampleTasks`: producer 0 submits the
first and the third task, producer 1 the second. -/
def sampleCalls : List (Nat × Task × Fix5 × Fix5) :=
  [(0, Task.Pow, some 200000, some 300000), (1, Task.Sqrt, some 900000, some 0),
   (0, Task.Sin, some 0, some 100000)]

/-- Three producers of 100 tasks each, one kind per producer, taking turns. -/
def threeProducers : List (Event Fix5) :=
  ((List.replicate 100 sampleTasks).flatten).map Event.ofTask

/-- A sequence of values of `rand()`. -/
def sampleRand (k : Nat) : Int := Int.ofNat (k * 37 + 5)

/-- Two producers: producer 0 submits the first and the third of `sampleTasks`,
producer 1 the second. -/
def sampleTodo : Nat → List (Task × Fix5 × Fix5)
  | 0 => [(Task.Pow, some 200000, some 300000), (Task.Sin, some 0, some 100000)]
  | 1 => [(Task.Sqrt, some 900000, some 0)]
  | _ => []

/-- A schedule: producer 0 completes a call; the worker passes the emptiness check and
releases the lock; producer 1 completes a call in between; the worker then reads the
front, logs it and takes the lock for the `pop` of line 108, and producer 0 has to wait. -/
def sampleSchedule : List Choice :=
  [Choice.producer 0, Choice.producer 0, Choice.producer 0, Choice.producer 0,
   Choice.worker, Choice.worker, Choice.worker, Choice.worker,
   Choice.producer 1, Choice.producer 1, Choice.producer 1, Choice.producer 1,
   Choice.worker, Choice.worker, Choice.worker, Choice.worker, Choice.worker,
   Choice.producer 0]

/-! ## Theorems -/

theorem resultOf_name {T : Type} (ops : Arith T) (t : Task × T × T) :
    (resultOf ops t).1 = nameOf t.1 := by
  obtain ⟨k, x, y⟩ := t
  cases k <;> rfl

theorem nameOf_injective (a b : Task) (h : nameOf a = nameOf b) : a = b := by
  cases a <;> cases b <;> first | rfl | (exact absurd h (by decide))

theorem WorkIter_nil {T : Type} (ops : Arith T) (s : Server T) (h : s.taskQueue = []) :
    WorkIter ops s = s := by
  unfold WorkIter
  rw [h]

theorem WorkIter_cons {T : Type} (ops : Arith T) (s : Server T) (t : Task × T × T)
    (q : List (Task × T × T)) (h : s.taskQueue = t :: q) :
    WorkIter ops s =
      { taskQueue := q, taskId := s.taskId, results := s.results ++ [resultOf ops t] } := by
  simp [WorkIter, WorkPop, WorkAppend, h]

/-- C3. One pass of the worker loop on a queue with front task `t`: the push onto `results`
(lines 91-106) appends exactly the tuple selected by the kind of `t` and leaves the queue as
it was, with `t` still at the front; the pop that follows removes exactly `t`; earlier log
entries, the rest of the queue and the counter are unchanged. On an empty queue the pass
changes nothing. The loop makes such a pass whenever its test finds no stop request, and
returns when it finds one. -/
theorem C3_worker_step {T : Type} (ops : Arith T) (s : Server T) :
    (∀ (k : Task) (x y : T) (q : List (Task × T × T)), s.taskQueue = (k, x, y) :: q →
      (WorkAppend ops s).results = s.results ++ [resultOf ops (k, x, y)] ∧
      (WorkAppend ops s).taskQueue = (k, x, y) :: q ∧
      WorkIter ops s = WorkPop (WorkAppend ops s) ∧
      (WorkIter ops s).results = s.results ++ [resultOf ops (k, x, y)] ∧
      (WorkIter ops s).taskQueue = q ∧
      (WorkIter ops s).taskId = s.taskId ∧
      resultOf ops (k, x, y) =
        (match k with
          | Task.Sin => ("Sin", ops.sin x, x, y)
          | Task.Sqrt => ("Sqrt", ops.sqrt x, x, y)
          | Task.Pow => ("Pow", ops.pow x y, x, y))) ∧
    (s.taskQueue = [] → WorkIter ops s = s) ∧
    (∀ stops : List Bool, Work ops (false :: stops) s = Work ops stops (WorkIter ops s)) ∧
    (∀ stops : List Bool, Work ops (true :: stops) s = some s) := by
  refine ⟨?_, WorkIter_nil ops s, fun _ => rfl, fun _ => rfl⟩
  intro k x y q h
  have hi := WorkIter_cons ops s (k, x, y) q h
  refine ⟨?_, ?_, ?_, ?_, ?_, ?_, ?_⟩
  · simp [WorkAppend, h]
  · simp [WorkAppend, h]
  · simp [WorkIter, h]
  · rw [hi]
  · rw [hi]
  · rw [hi]
  · cases k <;> rfl

/-! ### Conservation and order -/

theorem WorkIter_log {T : Type} (ops : Arith T) (s : Server T) :
    (WorkIter ops s).results ++ (WorkIter ops s).taskQueue.map (resultOf ops) =
      s.results ++ s.taskQueue.map (resultOf ops) := by
  cases h : s.taskQueue with
  | nil => rw [WorkIter_nil ops s h, h]
  | cons t q => rw [WorkIter_cons ops s t q h]; simp

theorem WorkIter_taskId {T : Type} (ops : Arith T) (s : Server T) :
    (WorkIter ops s).taskId = s.taskId := by
  cases h : s.taskQueue with
  | nil => rw [WorkIter_nil ops s h]
  | cons t q => rw [WorkIter_cons ops s t q h]

theorem Work_log {T : Type} (ops : Arith T) (stops : List Bool) :
    ∀ (s r : Server T), Work ops stops s = some r →
      r.results ++ r.taskQueue.map (resultOf ops) =
        s.results ++ s.taskQueue.map (resultOf ops) := by
  induction stops with
  | nil => intro s r h; simp [Work] at h
  | cons b stops ih =>
    intro s r h
    cases b with
    | true =>
      simp only [Work, Option.some.injEq] at h
      rw [h]
    | false =>
      simp only [Work] at h
      rw [ih _ r h, WorkIter_log]

theorem runEvents_log {T : Type} (ops : Arith T) (evs : List (Event T)) :
    ∀ s : Server T,
      (runEvents ops evs s).1.results ++ (runEvents ops evs s).1.taskQueue.map (resultOf ops) =
        s.results ++ s.taskQueue.map (resultOf ops) ++ (addedTasks evs).map (resultOf ops) := by
  induction evs with
  | nil => intro s; simp [runEvents, addedTasks]
  | cons e evs ih =>
    intro s
    cases e with
    | add k x y =>
      simp only [runEvents, addedTasks]
      rw [ih]
      simp [AddTask]
    | iter =>
      simp only [runEvents, addedTasks]
      rw [ih, WorkIter_log]

theorem countName_map {T : Type} (ops : Arith T) (k : Task) (ts : List (Task × T × T)) :
    countName k (ts.map (resultOf ops)) = countKind k ts := by
  induction ts with
  | nil => rfl
  | cons t ts ih =>
    unfold countName countKind at *
    rw [List.map_cons, List.countP_cons, List.countP_cons, ih]
    congr 1
    rw [resultOf_name]
    by_cases h : t.1 = k
    · simp [h]
    · have hn : ¬ nameOf t.1 = nameOf k := fun e => h (nameOf_injective _ _ e)
      simp [h, hn]

theorem countName_append {T : Type} (k : Task) (a b : List (String × T × T × T)) :
    countName k (a ++ b) = countName k a + countName k b := by
  unfold countName
  rw [List.countP_append]

theorem length_eq_kinds {T : Type} (ts : List (Task × T × T)) :
    ts.length = countKind Task.Sin ts + countKind Task.Sqrt ts + countKind Task.Pow ts := by
  induction ts with
  | nil => rfl
  | cons t ts ih =>
    obtain ⟨k, x, y⟩ := t
    unfold countKind at *
    cases k <;> simp [List.countP_cons, ih] <;> omega

/-- Conservation laws that follow from `log ++ map resultOf queue = map resultOf total`. -/
theorem conservation_of_log {T : Type} (ops : Arith T) (s : Server T)
    (total : List (Task × T × T))
    (h : s.results ++ s.taskQueue.map (resultOf ops) = total.map (resultOf ops)) :
    s.results.length + s.taskQueue.length = total.length ∧
    ∀ k, countName k s.results + countKind k s.taskQueue = countKind k total := by
  constructor
  · have := congrArg List.length h
    simpa using this
  · intro k
    have := congrArg (countName k) h
    rw [countName_append, countName_map, countName_map] at this
    exact this

theorem Work_replicate {T : Type} (ops : Arith T) (n : Nat) :
    ∀ s : Server T, Work ops (List.replicate n false ++ [true]) s = some ((WorkIter ops)^[n] s) := by
  induction n with
  | zero => intro s; rfl
  | succ n ih =>
    intro s
    rw [List.replicate_succ, List.cons_append, Function.iterate_succ_apply]
    simp only [Work]
    exact ih _

theorem WorkIter_iterate {T : Type} (ops : Arith T) (n : Nat) :
    ∀ s : Server T,
      ((WorkIter ops)^[n] s).results = s.results ++ (s.taskQueue.take n).map (resultOf ops) ∧
      ((WorkIter ops)^[n] s).taskQueue = s.taskQueue.drop n ∧
      ((WorkIter ops)^[n] s).taskId = s.taskId := by
  induction n with
  | zero => intro s; simp
  | succ n ih =>
    intro s
    rw [Function.iterate_succ_apply]
    obtain ⟨h1, h2, h3⟩ := ih (WorkIter ops s)
    cases h : s.taskQueue with
    | nil =>
      rw [WorkIter_nil ops s h] at h1 h2 h3 ⊢
      rw [h1, h2, h3, h]
      simp
    | cons t q =>
      rw [h1, h2, h3, WorkIter_cons ops s t q h]
      simp

theorem runEvents_adds {T : Type} (ops : Arith T) (tasks : List (Task × T × T)) :
    ∀ s : Server T,
      (runEvents ops (tasks.map Event.ofTask) s).1.taskQueue = s.taskQueue ++ tasks ∧
      (runEvents ops (tasks.map Event.ofTask) s).1.results = s.results := by
  induction tasks with
  | nil => intro s; simp [runEvents]
  | cons t ts ih =>
    intro s
    obtain ⟨h1, h2⟩ := ih (AddTask s t.1 t.2.1 t.2.2).1
    rw [List.map_cons]
    show (runEvents ops (ts.map Event.ofTask) (AddTask s t.1 t.2.1 t.2.2).1).1.taskQueue = _ ∧
      (runEvents ops (ts.map Event.ofTask) (AddTask s t.1 t.2.1 t.2.2).1).1.results = _
    rw [h1, h2]
    simp [AddTask]

theorem addedTasks_adds {T : Type} (tasks : List (Task × T × T)) :
    addedTasks (tasks.map Event.ofTask) = tasks := by
  induction tasks with
  | nil => rfl
  | cons t ts ih => simp [Event.ofTask, addedTasks] at *; exact ih

theorem attributed_map {α β : Type} (f : α → β) (p : Nat) (calls : List (Nat × α)) :
    attributed p calls ((calls.map Prod.snd).map f) = (callsOf p calls).map f := by
  induction calls with
  | nil => rfl
  | cons c cs ih =>
    unfold attributed callsOf at *
    by_cases h : c.1 = p
    · simp [List.filter_cons, h] at ih ⊢
      exact ih
    · simp [List.filter_cons, h] at ih ⊢
      exact ih

theorem runEvents_ids_length {T : Type} (ops : Arith T) (evs : List (Event T)) :
    ∀ s : Server T, (runEvents ops evs s).2.length = addCount evs := by
  induction evs with
  | nil => intro s; rfl
  | cons e evs ih =>
    intro s
    cases e with
    | add k x y =>
      show (s.taskId :: (runEvents ops evs (AddTask s k x y).1).2).length = addCount evs + 1
      rw [List.length_cons, ih]
    | iter => exact ih _

theorem runEvents_ids {T : Type} (ops : Arith T) (evs : List (Event T)) :
    ∀ s : Server T, s.taskId + addCount evs ≤ SIZE_MOD →
      (runEvents ops evs s).2 = List.range' s.taskId (addCount evs) := by
  induction evs with
  | nil => intro s _; rfl
  | cons e evs ih =>
    intro s hs
    cases e with
    | add k x y =>
      have hc : addCount (Event.add k x y :: evs) = addCount evs + 1 := rfl
      rw [hc] at hs ⊢
      show s.taskId :: (runEvents ops evs (AddTask s k x y).1).2 = _
      by_cases hz : addCount evs = 0
      · have hl := runEvents_ids_length ops evs (AddTask s k x y).1
        rw [hz] at hl
        rw [List.length_eq_zero.mp hl, hz]
        rfl
      · have hid : (AddTask s k x y).1.taskId = s.taskId + 1 :=
          Nat.mod_eq_of_lt (by omega)
        rw [ih _ (by rw [hid]; omega), hid]
        rfl
    | iter =>
      have hc : addCount (Event.iter :: evs) = addCount evs := rfl
      rw [hc] at hs ⊢
      show (runEvents ops evs (WorkIter ops s)).2 = _
      rw [ih _ (by rw [WorkIter_taskId]; exact hs), WorkIter_taskId]

/-! ### Claims on the server -/

/-- C1. Conservation. After any sequence of `AddTask` calls and completed passes of the
worker loop on a fresh server (in particular: all the calls, then the passes), the length of
the result log plus the length of the queue is the number of tasks submitted, and so it is
for each kind. The loop drains the queue in as many passes as it holds tasks; with the queue
empty the log has one entry per submitted task (300, 100 of each kind, when 100 tasks of each
kind were submitted); and when the loop exits on a stop request with `m > 0` tasks queued the
log has `total - m` entries, fewer than were submitted. -/
theorem C1_conservation {T : Type} (ops : Arith T) (evs : List (Event T)) :
    (runEvents ops evs (Server.new T)).1.results.length +
        (runEvents ops evs (Server.new T)).1.taskQueue.length = (addedTasks evs).length ∧
    (∀ k, countName k (runEvents ops evs (Server.new T)).1.results +
        countKind k (runEvents ops evs (Server.new T)).1.taskQueue
          = countKind k (addedTasks evs)) ∧
    (∀ (stops : List Bool) (r : Server T),
        Work ops stops (runEvents ops evs (Server.new T)).1 = some r →
        r.results.length + r.taskQueue.length = (addedTasks evs).length ∧
        (∀ k, countName k r.results + countKind k r.taskQueue = countKind k (addedTasks evs)) ∧
        (r.taskQueue = [] →
          r.results.length = (addedTasks evs).length ∧
          (∀ k, countName k r.results = countKind k (addedTasks evs)) ∧
          ((∀ k, countKind k (addedTasks evs) = 100) →
            r.results.length = 300 ∧ ∀ k, countName k r.results = 100)) ∧
        (∀ m, r.taskQueue.length = m → 0 < m →
          r.results.length = (addedTasks evs).length - m ∧
          r.results.length < (addedTasks evs).length)) ∧
    (∀ n, (runEvents ops evs (Server.new T)).1.taskQueue.length ≤ n →
        ∃ r, Work ops (List.replicate n false ++ [true])
               (runEvents ops evs (Server.new T)).1 = some r ∧ r.taskQueue = []) := by
  have hlog := runEvents_log ops evs (Server.new T)
  simp only [Server.new, List.map_nil, List.append_nil, List.nil_append] at hlog
  have hc := conservation_of_log ops _ _ hlog
  refine ⟨hc.1, hc.2, ?_, ?_⟩
  · intro stops r hr
    have hw := Work_log ops stops _ r hr
    simp only [Server.new] at hw
    rw [hlog] at hw
    obtain ⟨h1, h2⟩ := conservation_of_log ops r _ hw
    refine ⟨h1, h2, ?_, ?_⟩
    · intro hq
      rw [hq] at h1 h2
      have h3 : ∀ k, countName k r.results = countKind k (addedTasks evs) := by
        intro k
        have := h2 k
        simpa [countKind] using this
      refine ⟨by simpa using h1, h3, ?_⟩
      intro h100
      have hl := length_eq_kinds (addedTasks evs)
      rw [h100, h100, h100] at hl
      refine ⟨?_, fun k => (h3 k).trans (h100 k)⟩
      simp only [List.length_nil, Nat.add_zero] at h1
      omega
    · intro m hm hpos
      omega
  · intro n hn
    refine ⟨_, Work_replicate ops n _, ?_⟩
    rw [(WorkIter_iterate ops n _).2.1]
    exact List.drop_eq_nil_of_le hn

/-- C2. FIFO. For every interleaving `calls` of the producers (each call tagged with its
producer) the queue holds the submitted tasks in call order; after `n` passes the worker loop
has logged the entries of the first `n` tasks of the queue, in that order, and left the
others queued; once drained, the `i`-th log entry is the one computed from the `i`-th task
of the queue, and the log entries at the positions of one producer are the entries of that
producer's tasks in the order of its calls. -/
theorem C2_fifo {T : Type} (ops : Arith T) (calls : List (Nat × Task × T × T)) (n : Nat) :
    (runEvents ops ((calls.map Prod.snd).map Event.ofTask) (Server.new T)).1.taskQueue
      = calls.map Prod.snd ∧
    ∃ r, Work ops (List.replicate n false ++ [true])
          (runEvents ops ((calls.map Prod.snd).map Event.ofTask) (Server.new T)).1 = some r ∧
      r.results = ((calls.map Prod.snd).take n).map (resultOf ops) ∧
      r.taskQueue = (calls.map Prod.snd).drop n ∧
      (calls.length ≤ n →
        r.taskQueue = [] ∧
        r.results = (calls.map Prod.snd).map (resultOf ops) ∧
        (∀ i (h : i < (calls.map Prod.snd).length),
          r.results[i]? = some (resultOf ops ((calls.map Prod.snd).get ⟨i, h⟩))) ∧
        ∀ p, attributed p calls r.results = (callsOf p calls).map (resultOf ops)) := by
  have hq : (runEvents ops ((calls.map Prod.snd).map Event.ofTask) (Server.new T)).1.taskQueue
      = calls.map Prod.snd :=
    (runEvents_adds ops (calls.map Prod.snd) (Server.new T)).1.trans (List.nil_append _)
  have hr : (runEvents ops ((calls.map Prod.snd).map Event.ofTask) (Server.new T)).1.results
      = [] :=
    (runEvents_adds ops (calls.map Prod.snd) (Server.new T)).2
  refine ⟨hq, _, Work_replicate ops n _, ?_⟩
  obtain ⟨h1, h2, _⟩ := WorkIter_iterate ops n
    (runEvents ops ((calls.map Prod.snd).map Event.ofTask) (Server.new T)).1
  rw [hr, hq] at h1
  rw [hq] at h2
  rw [List.nil_append] at h1
  refine ⟨h1, h2, ?_⟩
  intro hn
  have hlen : (calls.map Prod.snd).length ≤ n := by simpa using hn
  have hres : ((WorkIter ops)^[n]
      (runEvents ops ((calls.map Prod.snd).map Event.ofTask) (Server.new T)).1).results
        = (calls.map Prod.snd).map (resultOf ops) := by
    rw [h1, List.take_of_length_le hlen]
  refine ⟨?_, hres, ?_, ?_⟩
  · rw [h2]; exact List.drop_eq_nil_of_le hlen
  · intro i h
    rw [hres]
    simp [List.getElem?_map, List.getElem?_eq_getElem (by simpa using h)]
  · intro p
    rw [hres]
    exact attributed_map (resultOf ops) p calls

theorem runEvents_ids_mod {T : Type} (ops : Arith T) (evs : List (Event T)) :
    ∀ s : Server T, s.taskId < SIZE_MOD →
      (runEvents ops evs s).2 =
        (List.range (addCount evs)).map (fun j => (s.taskId + j) % SIZE_MOD) := by
  induction evs with
  | nil => intro s _; rfl
  | cons e evs ih =>
    intro s hs
    cases e with
    | add k x y =>
      have hc : addCount (Event.add k x y :: evs) = addCount evs + 1 := rfl
      rw [hc, List.range_succ_eq_map, List.map_cons, List.map_map]
      show s.taskId :: (runEvents ops evs (AddTask s k x y).1).2 = _
      have hlt : (AddTask s k x y).1.taskId < SIZE_MOD :=
        Nat.mod_lt _ (by unfold SIZE_MOD; positivity)
      rw [ih _ hlt, Nat.add_zero, Nat.mod_eq_of_lt hs]
      congr 1
      apply List.map_congr_left
      intro j _
      show ((s.taskId + 1) % SIZE_MOD + j) % SIZE_MOD = (s.taskId + (j + 1)) % SIZE_MOD
      rw [Nat.mod_add_mod]
      congr 1
      omega
    | iter =>
      have hc : addCount (Event.iter :: evs) = addCount evs := rfl
      rw [hc]
      show (runEvents ops evs (WorkIter ops s)).2 = _
      rw [ih _ (by rw [WorkIter_taskId]; exact hs), WorkIter_taskId]

/-- C4. Submission ids. `AddTask` is total; it appends the task at the back of the queue,
returns the counter and stores the counter plus one (a `size_t`), touching nothing else.
On a fresh server, whatever passes of the worker loop run in between, the call number `j`
(from 0) returns `j` as a `size_t`: the ids are `0, 1, 2, ...` in call order, each the
previous one plus one, for as many calls as `size_t` has values. -/
theorem C4_submission_ids {T : Type} (ops : Arith T) :
    (∀ (s : Server T) (k : Task) (x y : T),
      (AddTask s k x y).2 = s.taskId ∧
      (AddTask s k x y).1.taskQueue = s.taskQueue ++ [(k, x, y)] ∧
      (AddTask s k x y).1.taskId = (s.taskId + 1) % 2 ^ 64 ∧
      (AddTask s k x y).1.results = s.results) ∧
    (∀ (evs : List (Event T)) (j : Nat), j < addCount evs →
      (runEvents ops evs (Server.new T)).2[j]? = some (j % 2 ^ 64)) ∧
    (∀ (evs : List (Event T)) (j : Nat), j < addCount evs → j < 2 ^ 64 →
      (runEvents ops evs (Server.new T)).2[j]? = some j) ∧
    (∀ evs : List (Event T), addCount evs ≤ 2 ^ 64 →
      (runEvents ops evs (Server.new T)).2 = List.range (addCount evs)) := by
  have hmod : ∀ (evs : List (Event T)) (j : Nat), j < addCount evs →
      (runEvents ops evs (Server.new T)).2[j]? = some (j % 2 ^ 64) := by
    intro evs j hj
    rw [runEvents_ids_mod ops evs (Server.new T)
      (show (0 : Nat) < SIZE_MOD by unfold SIZE_MOD; decide)]
    simp [Server.new, SIZE_MOD, hj]
  refine ⟨fun s k x y => ⟨rfl, rfl, rfl, rfl⟩, hmod, ?_, ?_⟩
  · intro evs j hj hlt
    rw [hmod evs j hj, Nat.mod_eq_of_lt hlt]
  · intro evs h
    rw [runEvents_ids ops evs (Server.new T) (by simpa [Server.new, SIZE_MOD] using h)]
    simp [Server.new, List.range_eq_range']

/-! ### The producer -/

theorem StartLoop_eq {T : Type} (ops : Arith T) (taskType : Task) (xFirst : Bool)
    (rand : Nat → Int) (N : Int) (fuel : Nat) :
    ∀ (i : Int) (c : Nat) (s : Server T), (N - i).toNat < fuel →
      StartLoop ops taskType xFirst rand N fuel i c s =
        some ((runEvents ops
          (startEvents ops taskType (startArgs xFirst rand (N - i).toNat c)) s).1,
          c + 2 * (N - i).toNat) := by
  induction fuel with
  | zero => intro i c s h; omega
  | succ fuel ih =>
    intro i c s h
    by_cases hi : i < N
    · have hstep : (N - i).toNat = (N - (i + 1)).toNat + 1 := by omega
      have hlt : (N - (i + 1)).toNat < fuel := by omega
      simp only [StartLoop, hi, if_true]
      rw [ih (i + 1) (c + 2) _ hlt, hstep]
      simp only [startArgs, startEvents, List.map_cons, runEvents]
      congr 2
      omega
    · have hz : (N - i).toNat = 0 := by omega
      simp only [StartLoop, hi, if_false, hz]
      rfl

theorem startArgs_length (xFirst : Bool) (rand : Nat → Int) (n : Nat) :
    ∀ c, (startArgs xFirst rand n c).length = n := by
  induction n with
  | zero => intro c; rfl
  | succ n ih => intro c; simp [startArgs, ih]

theorem startArgs_range (xFirst : Bool) (rand : Nat → Int) (hrand : ∀ k, 0 ≤ rand k) (n : Nat) :
    ∀ c, ∀ a ∈ startArgs xFirst rand n c, 0 ≤ a.1 ∧ a.1 < 100 ∧ 0 ≤ a.2 ∧ a.2 < 4 := by
  have hmod : ∀ (v m : Int), 0 ≤ v → 0 < m → 0 ≤ v.tmod m ∧ v.tmod m < m := by
    intro v m hv hm
    rw [Int.tmod_eq_emod hv (le_of_lt hm)]
    exact ⟨Int.emod_nonneg _ (ne_of_gt hm), Int.emod_lt_of_pos _ hm⟩
  induction n with
  | zero => intro c a ha; simp [startArgs] at ha
  | succ n ih =>
    intro c a ha
    simp only [startArgs, List.mem_cons] at ha
    rcases ha with rfl | ha
    · have hx : 0 ≤ (if xFirst then rand c else rand (c + 1)) := by split <;> apply hrand
      have hy : 0 ≤ (if xFirst then rand (c + 1) else rand c) := by split <;> apply hrand
      exact ⟨(hmod _ 100 hx (by decide)).1, (hmod _ 100 hx (by decide)).2,
        (hmod _ 4 hy (by decide)).1, (hmod _ 4 hy (by decide)).2⟩
    · exact ih _ a ha

theorem runEvents_startEvents {T : Type} (ops : Arith T) (taskType : Task)
    (args : List (Int × Int)) :
    ∀ s : Server T,
      (runEvents ops (startEvents ops taskType args) s).1.taskQueue =
        s.taskQueue ++ args.map (fun a => (taskType, ops.ofInt a.1, ops.ofInt a.2)) ∧
      (runEvents ops (startEvents ops taskType args) s).1.results = s.results ∧
      (runEvents ops (startEvents ops taskType args) s).2.length = args.length := by
  induction args with
  | nil => intro s; simp [startEvents, runEvents]
  | cons a args ih =>
    intro s
    obtain ⟨h1, h2, h3⟩ := ih (AddTask s taskType (ops.ofInt a.1) (ops.ofInt a.2)).1
    simp only [startEvents, List.map_cons, runEvents, List.length_cons] at h1 h2 h3 ⊢
    rw [h1, h2, h3]
    simp [AddTask]

/-- C9. Producer batch. For every `N`, every order of evaluation of the two arguments and
every sequence of non-negative values of `rand()`, the loop of `Client::Start(N)` ends, and
what it has done to the server is exactly `max N 0` calls of `AddTask`: each with the
client's own kind, a first operand converted from an integer in `[0, 100)` and a second
from an integer in `[0, 4)`. The tasks are appended to the queue in call order, the result
log is untouched, and for `N <= 0` nothing is done. -/
theorem C9_producer_batch {T : Type} (ops : Arith T) (taskType : Task) (xFirst : Bool)
    (rand : Nat → Int) (N : Int) (s : Server T) (hrand : ∀ k, 0 ≤ rand k) :
    ∃ args : List (Int × Int),
      args.length = N.toNat ∧
      (∀ a ∈ args, 0 ≤ a.1 ∧ a.1 < 100 ∧ 0 ≤ a.2 ∧ a.2 < 4) ∧
      Start ops taskType xFirst rand N s =
        some ((runEvents ops (startEvents ops taskType args) s).1, 2 * N.toNat) ∧
      (runEvents ops (startEvents ops taskType args) s).2.length = N.toNat ∧
      (runEvents ops (startEvents ops taskType args) s).1.taskQueue =
        s.taskQueue ++ args.map (fun a => (taskType, ops.ofInt a.1, ops.ofInt a.2)) ∧
      (runEvents ops (startEvents ops taskType args) s).1.results = s.results ∧
      (N ≤ 0 → Start ops taskType xFirst rand N s = some (s, 0)) := by
  have hstart := StartLoop_eq ops taskType xFirst rand N (N.toNat + 1) 0 0 s (by simp)
  simp only [Int.sub_zero, Nat.zero_add] at hstart
  obtain ⟨h1, h2, h3⟩ := runEvents_startEvents ops taskType (startArgs xFirst rand N.toNat 0) s
  refine ⟨startArgs xFirst rand N.toNat 0, startArgs_length _ _ _ _,
    startArgs_range xFirst rand hrand _ _, hstart, ?_, h1, h2, ?_⟩
  · rw [h3, startArgs_length]
  · intro hN
    have hz : N.toNat = 0 := by omega
    unfold Start
    rw [hstart, hz]
    rfl

/-! ### The validator -/

theorem checkEntry_okFlag {T : Type} (ops : Arith T) (v : Vars T) :
    (checkEntry ops v).okFlag =
      (v.okFlag || offTolerance ops (ops.sub (recomputed ops v) v.res)) := by
  obtain ⟨st, m, id, ts, ty, res, x, y, ok⟩ := v
  unfold checkEntry recomputed
  cases ty <;> dsimp only <;> split <;> simp_all

theorem checkEntry_fields {T : Type} (ops : Arith T) (v : Vars T) :
    (checkEntry ops v).inputStream = v.inputStream ∧ (checkEntry ops v).map = v.map ∧
    (checkEntry ops v).id = v.id ∧ (checkEntry ops v).taskString = v.taskString ∧
    (checkEntry ops v).taskType = v.taskType ∧ (checkEntry ops v).res = v.res ∧
    (checkEntry ops v).x = v.x ∧ (checkEntry ops v).y = v.y := by
  obtain ⟨st, m, id, ts, ty, res, x, y, ok⟩ := v
  unfold checkEntry
  cases ty <;> dsimp only <;> split <;> simp

theorem readEntry_okFlag {T : Type} (ops : Arith T) (v : Vars T) :
    (readEntry ops v).okFlag = v.okFlag := by
  unfold readEntry
  dsimp only
  split <;> rfl

theorem loopBody_okFlag {T : Type} (ops : Arith T) (v : Vars T) :
    (loopBody ops v).okFlag =
      (v.okFlag ||
        offTolerance ops (ops.sub (recomputed ops (readEntry ops v)) (readEntry ops v).res)) := by
  unfold loopBody
  rw [checkEntry_okFlag, readEntry_okFlag]

/-- A pass of the loop that sets `okFlag` is the last one, and the function returns `true`. -/
theorem IsCorrectLoop_pass {T : Type} (ops : Arith T) (fuel : Nat) (v : Vars T)
    (hf : v.inputStream.fail = false) (hk : v.okFlag = false)
    (h : (loopBody ops v).okFlag = true) :
    IsCorrectLoop ops (fuel + 2) v = some true := by
  simp [IsCorrectLoop, hf, hk, h]

/-- A pass of the loop that leaves `okFlag` unset on a good stream is followed by another. -/
theorem IsCorrectLoop_next {T : Type} (ops : Arith T) (fuel : Nat) (v : Vars T)
    (hf : v.inputStream.fail = false) (hk : v.okFlag = false) :
    IsCorrectLoop ops (fuel + 1) v = IsCorrectLoop ops fuel (loopBody ops v) := by
  simp [IsCorrectLoop, hf, hk]

theorem initialMap_known (key : String) (h : key = "Sin" ∨ key = "Sqrt" ∨ key = "Pow") :
    initialMap.lookup key = some (taskOfName key) := by
  rcases h with h | h | h <;> subst h <;> decide

theorem initialMap_ok : MapOk initialMap := by
  refine ⟨?_, initialMap_known⟩
  intro key
  by_cases h1 : key = "Sin"
  · exact Or.inr (initialMap_known key (Or.inl h1))
  · by_cases h2 : key = "Sqrt"
    · exact Or.inr (initialMap_known key (Or.inr (Or.inl h2)))
    · by_cases h3 : key = "Pow"
      · exact Or.inr (initialMap_known key (Or.inr (Or.inr h3)))
      · left
        unfold initialMap
        simp only [List.lookup_cons, List.lookup_nil]
        rw [beq_false_of_ne h1, beq_false_of_ne h2, beq_false_of_ne h3]

theorem mapIndex_ok (m : List (String × Task)) (key : String) (h : MapOk m) :
    (mapIndex m key).2 = taskOfName key ∧ MapOk (mapIndex m key).1 := by
  obtain ⟨h, hk⟩ := h
  unfold mapIndex
  cases hl : m.lookup key with
  | some t =>
    rcases h key with hn | hs
    · rw [hn] at hl; cases hl
    · rw [hs] at hl
      exact ⟨(Option.some.inj hl).symm, h, hk⟩
  | none =>
    have hkey : ¬ (key = "Sin" ∨ key = "Sqrt" ∨ key = "Pow") := by
      intro hc
      rw [hk key hc] at hl
      cases hl
    have hSin : taskOfName key = Task.Sin := by
      unfold taskOfName
      simp only [not_or] at hkey
      simp [hkey.2.1, hkey.2.2]
    refine ⟨hSin.symm, ?_, ?_⟩
    · intro k
      dsimp only
      rw [List.lookup_append]
      rcases h k with hn | hs
      · rw [hn]
        by_cases hkk : k = key
        · subst hkk; right; simp [List.lookup_cons, hSin]
        · left
          simp only [List.lookup_cons, List.lookup_nil]
          rw [beq_false_of_ne hkk]
          rfl
      · right; rw [hs]; rfl
    · intro k hkn
      dsimp only
      rw [List.lookup_append, hk k hkn]
      rfl

theorem readEntry_taskType {T : Type} (ops : Arith T) (v : Vars T) :
    (readEntry ops v).taskType = (mapIndex v.map (readEntry ops v).taskString).2 ∧
    (readEntry ops v).map = (mapIndex v.map (readEntry ops v).taskString).1 := by
  unfold readEntry
  dsimp only
  split <;> exact ⟨rfl, rfl⟩

theorem taskOfName_unknown (name : String) (h2 : name ≠ "Sqrt")
    (h3 : name ≠ "Pow") : taskOfName name = Task.Sin := by
  unfold taskOfName
  simp [h2, h3]

theorem readEntry_map {T : Type} (ops : Arith T) (v : Vars T) (h : MapOk v.map) :
    (readEntry ops v).taskType = taskOfName (readEntry ops v).taskString ∧
    MapOk (readEntry ops v).map := by
  obtain ⟨h1, h2⟩ := readEntry_taskType ops v
  rw [h1, h2]
  exact mapIndex_ok _ _ h

theorem loopBody_map {T : Type} (ops : Arith T) (v : Vars T) (h : MapOk v.map) :
    (loopBody ops v).taskType = taskOfName (loopBody ops v).taskString ∧
    MapOk (loopBody ops v).map := by
  unfold loopBody
  obtain ⟨_, hm, _, hs, ht, _⟩ := checkEntry_fields ops (readEntry ops v)
  rw [hm, hs, ht]
  exact readEntry_map ops v h

/-! ### The loop of the validator ends -/

theorem IStream.After.trans {a b c : IStream} (h1 : IStream.After c b)
    (h2 : IStream.After b a) : IStream.After c a :=
  ⟨le_trans h1.1 h2.1, fun h => h1.2 (h2.2 h)⟩

theorem skipws_length (cs : List Char) : (skipws cs).length ≤ cs.length := by
  unfold skipws
  exact (List.dropWhile_sublist isspace).length_le

theorem dropWhile_head_false {α : Type} (p : α → Bool) (l : List α) (c : α) (cs : List α)
    (h : l.dropWhile p = c :: cs) : p c = false := by
  induction l with
  | nil => simp at h
  | cons a l ih =>
    rw [List.dropWhile_cons] at h
    by_cases ha : p a = true
    · rw [if_pos ha] at h; exact ih h
    · rw [if_neg ha] at h
      injection h with h1 _
      subst h1
      simpa using ha

theorem extract_after {α : Type} (p : List Char → Extracted α) (st : IStream) (old : α) :
    IStream.After (extract p st old).1 st := by
  unfold extract
  by_cases hf : st.fail = true
  · rw [if_pos hf]; exact ⟨le_refl _, fun h => h⟩
  · rw [if_neg hf]
    have hlen := skipws_length st.chars
    cases hs : skipws st.chars with
    | nil => exact ⟨by simp, fun _ => rfl⟩
    | cons c cs =>
      rw [hs] at hlen
      dsimp only
      cases p (c :: cs) with
      | ok v n =>
        refine ⟨?_, fun h => absurd h hf⟩
        dsimp only
        exact le_trans (List.drop_sublist n (c :: cs)).length_le hlen
      | bad stored => exact ⟨hlen, fun _ => rfl⟩

theorem extractString_after (st : IStream) (old : String) :
    IStream.After (extractString st old).1 st ∧
    ((extractString st old).1.fail = false →
      (extractString st old).1.chars.length < st.chars.length) := by
  unfold extractString
  by_cases hf : st.fail = true
  · rw [if_pos hf]
    exact ⟨⟨le_refl _, fun h => h⟩, fun h => by rw [hf] at h; cases h⟩
  · rw [if_neg hf]
    have hlen := skipws_length st.chars
    cases hs : skipws st.chars with
    | nil => exact ⟨⟨by simp, fun _ => rfl⟩, fun h => by cases h⟩
    | cons c cs =>
      rw [hs] at hlen
      have hc : isspace c = false := dropWhile_head_false isspace st.chars c cs hs
      have hd : ((c :: cs).dropWhile (fun d => !isspace d)).length ≤ cs.length := by
        rw [List.dropWhile_cons, if_pos (by simp [hc])]
        exact (List.dropWhile_sublist _).length_le
      simp only [List.length_cons] at hlen
      refine ⟨⟨?_, fun h => absurd h hf⟩, fun _ => ?_⟩
      · show ((c :: cs).dropWhile (fun d => !isspace d)).length ≤ st.chars.length
        omega
      · show ((c :: cs).dropWhile (fun d => !isspace d)).length < st.chars.length
        omega

theorem readEntry_after {T : Type} (ops : Arith T) (v : Vars T) :
    IStream.After (readEntry ops v).inputStream v.inputStream ∧
    ((readEntry ops v).inputStream.fail = false →
      (readEntry ops v).inputStream.chars.length < v.inputStream.chars.length) := by
  have h1 := extract_after ops.parseSize v.inputStream v.id
  obtain ⟨h2, h2s⟩ := extractString_after (extract ops.parseSize v.inputStream v.id).1
    v.taskString
  have key : ∀ st : IStream,
      IStream.After st (extractString (extract ops.parseSize v.inputStream v.id).1
        v.taskString).1 →
      IStream.After st v.inputStream ∧
      (st.fail = false → st.chars.length < v.inputStream.chars.length) := by
    intro st hst
    refine ⟨hst.trans (h2.trans h1), fun hf => ?_⟩
    have hg : (extractString (extract ops.parseSize v.inputStream v.id).1
        v.taskString).1.fail = false := by
      cases hb : (extractString (extract ops.parseSize v.inputStream v.id).1
        v.taskString).1.fail with
      | false => rfl
      | true => rw [hst.2 hb] at hf; cases hf
    have := h2s hg
    have := hst.1
    have := h1.1
    omega
  unfold readEntry
  dsimp only
  split
  · exact key _ ((extract_after _ _ _).trans ((extract_after _ _ _).trans (extract_after _ _ _)))
  · exact key _ ((extract_after _ _ _).trans (extract_after _ _ _))

theorem IsCorrectLoop_returns {T : Type} (ops : Arith T) (fuel : Nat) :
    ∀ v : Vars T, v.inputStream.chars.length + 2 ≤ fuel →
      ∃ b, IsCorrectLoop ops fuel v = some b := by
  induction fuel with
  | zero => intro v h; omega
  | succ fuel ih =>
    intro v h
    unfold IsCorrectLoop
    by_cases ht : (!v.inputStream.fail && !v.okFlag) = true
    · rw [if_pos ht]
      have hs : (loopBody ops v).inputStream = (readEntry ops v).inputStream :=
        (checkEntry_fields ops (readEntry ops v)).1
      obtain ⟨_, hlt⟩ := readEntry_after ops v
      cases hb : (loopBody ops v).inputStream.fail with
      | false =>
        rw [hs] at hb
        have := hlt hb
        exact ih _ (by rw [hs]; omega)
      | true =>
        obtain ⟨f, rfl⟩ : ∃ f, fuel = f + 1 := ⟨fuel - 1, by omega⟩
        unfold IsCorrectLoop
        rw [if_neg (by simp [hb])]
        exact ⟨_, rfl⟩
    · rw [if_neg ht]
      exact ⟨_, rfl⟩

/-- The function `IsCorrect` returns on every input. -/
theorem IsCorrect_returns {T : Type} (ops : Arith T) (u : Uninit T) (input : List Char) :
    ∃ b, IsCorrect ops u input = some b :=
  IsCorrectLoop_returns ops _ _ (le_refl _)

/-! ### Reading back the written log -/

theorem skipws_blank_append (pre f : List Char) (hpre : ∀ c ∈ pre, isspace c = true)
    (hf : StartsNonBlank f) (rest : List Char) :
    skipws (pre ++ (f ++ rest)) = f ++ rest := by
  obtain ⟨c, cs, rfl, hc⟩ := hf
  unfold skipws
  rw [List.dropWhile_append_of_pos hpre, List.cons_append, List.dropWhile_cons,
    if_neg (by simp [hc])]

theorem extract_field {α : Type} (p : List Char → Extracted α) (pre f : List Char) (d : Char)
    (rest : List Char) (old v : α) (hpre : ∀ c ∈ pre, isspace c = true)
    (hf : StartsNonBlank f) (hp : p (f ++ d :: rest) = Extracted.ok v f.length) :
    extract p { chars := pre ++ (f ++ d :: rest), fail := false } old =
      ({ chars := d :: rest, fail := false }, v) := by
  have hs := skipws_blank_append pre f hpre hf (d :: rest)
  obtain ⟨c, cs, rfl, hc⟩ := hf
  unfold extract
  simp only [Bool.false_eq_true, if_false]
  rw [hs]
  simp only [List.cons_append] at hp ⊢
  rw [hp]
  simp only [List.length_cons, List.drop_succ_cons]
  rw [List.drop_left]

theorem extractString_field (pre f : List Char) (d : Char) (rest : List Char) (old : String)
    (hpre : ∀ c ∈ pre, isspace c = true) (hne : f ≠ [])
    (hf : ∀ c ∈ f, isspace c = false) (hd : isspace d = true) :
    extractString { chars := pre ++ (f ++ d :: rest), fail := false } old =
      ({ chars := d :: rest, fail := false }, String.mk f) := by
  have hnb : StartsNonBlank f := by
    cases f with
    | nil => exact absurd rfl hne
    | cons c cs => exact ⟨c, cs, rfl, hf c (List.mem_cons_self _ _)⟩
  have hs := skipws_blank_append pre f hpre hnb (d :: rest)
  have hall : ∀ c ∈ f, (fun x => !isspace x) c = true := by
    intro c hc; simp [hf c hc]
  have htake : (f ++ d :: rest).takeWhile (fun x => !isspace x) = f := by
    rw [List.takeWhile_append_of_pos hall, List.takeWhile_cons, if_neg (by simp [hd])]
    simp
  have hdrop : (f ++ d :: rest).dropWhile (fun x => !isspace x) = d :: rest := by
    rw [List.dropWhile_append_of_pos hall, List.dropWhile_cons, if_neg (by simp [hd])]
  unfold extractString
  simp only [Bool.false_eq_true, if_false]
  rw [hs]
  cases hfr : f ++ d :: rest with
  | nil => simp at hfr
  | cons c cs =>
    dsimp only
    rw [← hfr, htake, hdrop]

theorem taskOfName_pow (name : String) : taskOfName name = Task.Pow ↔ name = "Pow" := by
  unfold taskOfName
  by_cases h1 : name = "Sqrt"
  · subst h1; simp
  · by_cases h2 : name = "Pow"
    · subst h2; simp
    · simp [h1, h2]

theorem writeLine_data_pow {T : Type} (ops : Arith T) (i : Nat) (e : String × T × T × T)
    (hp : e.1 = "Pow") :
    (writeLine ops i e).data =
      (ops.fmtSize i).data ++ ' ' :: (e.1.data ++ ' ' :: ((ops.fmt e.2.1).data ++ ' ' ::
        ((ops.fmt e.2.2.1).data ++ ' ' :: ((ops.fmt e.2.2.2).data ++ ['\n'])))) := by
  unfold writeLine
  have hsp : (" " : String).data = [' '] := rfl
  have hnl : ("\n" : String).data = ['\n'] := rfl
  rw [if_pos hp]
  simp [String.data_append, hsp, hnl]

theorem writeLine_data_other {T : Type} (ops : Arith T) (i : Nat) (e : String × T × T × T)
    (hp : ¬ e.1 = "Pow") :
    (writeLine ops i e).data =
      (ops.fmtSize i).data ++ ' ' :: (e.1.data ++ ' ' :: ((ops.fmt e.2.1).data ++ ' ' ::
        ((ops.fmt e.2.2.1).data ++ ['\n']))) := by
  unfold writeLine
  have hsp : (" " : String).data = [' '] := rfl
  have hnl : ("\n" : String).data = ['\n'] := rfl
  rw [if_neg hp]
  simp [String.data_append, hsp, hnl]

theorem isspace_space : isspace ' ' = true := by decide

theorem isspace_newline : isspace '\n' = true := by decide

theorem blank_singleton (d : Char) (hd : isspace d = true) : ∀ c ∈ [d], isspace c = true := by
  intro c hc
  rw [List.mem_singleton] at hc
  rw [hc]; exact hd

/-- One pass of the reader over the text of an entry written by `main`. -/
theorem readEntry_written {T : Type} (ops : Arith T) (rt : T → T) (i : Nat)
    (e : String × T × T × T) (pre rest : List Char) (v : Vars T)
    (hst : v.inputStream = { chars := pre ++ ((writeLine ops i e).data ++ rest), fail := false })
    (hpre : ∀ c ∈ pre, isspace c = true) (hmap : MapOk v.map) (he : Readable ops rt i e) :
    (readEntry ops v).inputStream = { chars := '\n' :: rest, fail := false } ∧
    (readEntry ops v).id = i ∧
    (readEntry ops v).taskString = e.1 ∧
    (readEntry ops v).taskType = taskOfName e.1 ∧
    (readEntry ops v).res = rt e.2.1 ∧
    (readEntry ops v).x = rt e.2.2.1 ∧
    (readEntry ops v).y = (if e.1 = "Pow" then rt e.2.2.2 else v.y) ∧
    MapOk (readEntry ops v).map := by
  obtain ⟨hsz, hname, hval, hx, hy⟩ := he
  have htt : (mapIndex v.map e.1).2 = taskOfName e.1 := (mapIndex_ok _ _ hmap).1
  have hmm : MapOk (mapIndex v.map e.1).1 := (mapIndex_ok _ _ hmap).2
  have hb := blank_singleton _ isspace_space
  by_cases hp : e.1 = "Pow"
  · have hpp : taskOfName e.1 = Task.Pow := (taskOfName_pow _).mpr hp
    rw [writeLine_data_pow ops i e hp] at hst
    rw [if_pos hp]
    have h1 := extract_field ops.parseSize pre (ops.fmtSize i).data ' '
      (e.1.data ++ ' ' :: ((ops.fmt e.2.1).data ++ ' ' ::
        ((ops.fmt e.2.2.1).data ++ ' ' :: ((ops.fmt e.2.2.2).data ++ '\n' :: rest))))
      v.id i hpre hsz.1 (hsz.2 _ _ isspace_space)
    have h2 := extractString_field [' '] e.1.data ' '
      ((ops.fmt e.2.1).data ++ ' ' ::
        ((ops.fmt e.2.2.1).data ++ ' ' :: ((ops.fmt e.2.2.2).data ++ '\n' :: rest)))
      v.taskString hb hname.1 hname.2 isspace_space
    have h3 := extract_field ops.parse [' '] (ops.fmt e.2.1).data ' '
      ((ops.fmt e.2.2.1).data ++ ' ' :: ((ops.fmt e.2.2.2).data ++ '\n' :: rest))
      v.res (rt e.2.1) hb hval.1 (hval.2 _ _ isspace_space)
    have h4 := extract_field ops.parse [' '] (ops.fmt e.2.2.1).data ' '
      ((ops.fmt e.2.2.2).data ++ '\n' :: rest)
      v.x (rt e.2.2.1) hb hx.1 (hx.2 _ _ isspace_space)
    have h5 := extract_field ops.parse [' '] (ops.fmt e.2.2.2).data '\n' rest
      v.y (rt e.2.2.2) hb (hy hp).1 ((hy hp).2 _ _ isspace_newline)
    simp only [List.singleton_append] at h2 h3 h4 h5
    have hst2 : v.inputStream = { chars := pre ++ ((ops.fmtSize i).data ++ ' ' ::
        (e.1.data ++ ' ' :: ((ops.fmt e.2.1).data ++ ' ' :: ((ops.fmt e.2.2.1).data ++ ' ' ::
          ((ops.fmt e.2.2.2).data ++ '\n' :: rest))))), fail := false } := by
      rw [hst]; simp
    unfold readEntry
    dsimp only
    rw [hst2, h1]
    dsimp only
    rw [h2]
    dsimp only
    rw [htt, if_pos hpp, h3]
    dsimp only
    rw [h4]
    dsimp only
    rw [h5]
    exact ⟨rfl, rfl, rfl, rfl, rfl, rfl, rfl, hmm⟩
  · have hpp : ¬ taskOfName e.1 = Task.Pow := fun h => hp ((taskOfName_pow _).mp h)
    rw [writeLine_data_other ops i e hp] at hst
    rw [if_neg hp]
    have h1 := extract_field ops.parseSize pre (ops.fmtSize i).data ' '
      (e.1.data ++ ' ' :: ((ops.fmt e.2.1).data ++ ' ' ::
        ((ops.fmt e.2.2.1).data ++ '\n' :: rest)))
      v.id i hpre hsz.1 (hsz.2 _ _ isspace_space)
    have h2 := extractString_field [' '] e.1.data ' '
      ((ops.fmt e.2.1).data ++ ' ' :: ((ops.fmt e.2.2.1).data ++ '\n' :: rest))
      v.taskString hb hname.1 hname.2 isspace_space
    have h3 := extract_field ops.parse [' '] (ops.fmt e.2.1).data ' '
      ((ops.fmt e.2.2.1).data ++ '\n' :: rest)
      v.res (rt e.2.1) hb hval.1 (hval.2 _ _ isspace_space)
    have h4 := extract_field ops.parse [' '] (ops.fmt e.2.2.1).data '\n' rest
      v.x (rt e.2.2.1) hb hx.1 (hx.2 _ _ isspace_newline)
    simp only [List.singleton_append] at h2 h3 h4
    have hst2 : v.inputStream = { chars := pre ++ ((ops.fmtSize i).data ++ ' ' ::
        (e.1.data ++ ' ' :: ((ops.fmt e.2.1).data ++ ' ' ::
          ((ops.fmt e.2.2.1).data ++ '\n' :: rest)))), fail := false } := by
      rw [hst]; simp
    unfold readEntry
    dsimp only
    rw [hst2, h1]
    dsimp only
    rw [h2]
    dsimp only
    rw [htt, if_neg hpp, h3]
    dsimp only
    rw [h4]
    exact ⟨rfl, rfl, rfl, rfl, rfl, rfl, rfl, hmm⟩

theorem loopBody_fields {T : Type} (ops : Arith T) (v : Vars T) :
    (loopBody ops v).inputStream = (readEntry ops v).inputStream ∧
    (loopBody ops v).map = (readEntry ops v).map ∧
    (loopBody ops v).id = (readEntry ops v).id ∧
    (loopBody ops v).taskString = (readEntry ops v).taskString ∧
    (loopBody ops v).taskType = (readEntry ops v).taskType ∧
    (loopBody ops v).res = (readEntry ops v).res ∧
    (loopBody ops v).x = (readEntry ops v).x ∧
    (loopBody ops v).y = (readEntry ops v).y :=
  checkEntry_fields ops (readEntry ops v)

/-- The passes of the reader over a log written by `main`: the pass number `k + 1` reads the
fields of the entry at position `k` and stops in front of the text of the next entry. -/
theorem loopBody_written {T : Type} (ops : Arith T) (rt : T → T) :
    ∀ (es : List (String × T × T × T)) (i : Nat) (pre : List Char) (v : Vars T),
      v.inputStream = { chars := pre ++ (writeFrom ops i es).data, fail := false } →
      (∀ c ∈ pre, isspace c = true) → MapOk v.map → ReadableFrom ops rt i es →
      ∀ (k : Nat) (e : String × T × T × T), es[k]? = some e →
        ((loopBody ops)^[k + 1] v).inputStream =
          { chars := '\n' :: (writeFrom ops (i + k + 1) (es.drop (k + 1))).data,
            fail := false } ∧
        ((loopBody ops)^[k + 1] v).id = i + k ∧
        ((loopBody ops)^[k + 1] v).taskString = e.1 ∧
        ((loopBody ops)^[k + 1] v).taskType = taskOfName e.1 ∧
        ((loopBody ops)^[k + 1] v).res = rt e.2.1 ∧
        ((loopBody ops)^[k + 1] v).x = rt e.2.2.1 ∧
        (e.1 = "Pow" → ((loopBody ops)^[k + 1] v).y = rt e.2.2.2) := by
  intro es
  induction es with
  | nil => intro i pre v _ _ _ _ k e hk; simp at hk
  | cons e0 es ih =>
    intro i pre v hst hpre hmap hread k e hk
    obtain ⟨hr0, hrest⟩ := hread
    have hst0 : v.inputStream =
        { chars := pre ++ ((writeLine ops i e0).data ++ (writeFrom ops (i + 1) es).data),
          fail := false } := by
      rw [hst, writeFrom, String.data_append]
    obtain ⟨r1, r2, r3, r4, r5, r6, r7, r8⟩ :=
      readEntry_written ops rt i e0 pre _ v hst0 hpre hmap hr0
    obtain ⟨b1, b2, b3, b4, b5, b6, b7, b8⟩ := loopBody_fields ops v
    cases k with
    | zero =>
      simp only [List.getElem?_cons_zero, Option.some.injEq] at hk
      subst hk
      simp only [Function.iterate_succ, Function.iterate_zero, Function.comp_apply, id_eq,
        Nat.add_zero, List.drop_succ_cons, List.drop_zero]
      refine ⟨b1.trans r1, b3.trans r2, b4.trans r3, b5.trans r4, b6.trans r5, b7.trans r6, ?_⟩
      intro hp
      rw [b8, r7, if_pos hp]
    | succ k =>
      rw [List.getElem?_cons_succ] at hk
      have hv : (loopBody ops v).inputStream =
          { chars := ['\n'] ++ (writeFrom ops (i + 1) es).data, fail := false } :=
        b1.trans r1
      have := ih (i + 1) ['\n'] (loopBody ops v) hv (blank_singleton _ isspace_newline)
        (by rw [b2]; exact r8) hrest k e hk
      rw [Function.iterate_succ_apply]
      have e1 : i + 1 + k + 1 = i + (k + 1) + 1 := by omega
      have e2 : i + 1 + k = i + (k + 1) := by omega
      rw [e1, e2] at this
      simpa using this

theorem recomputed_eq {T : Type} (ops : Arith T) (v : Vars T) :
    recomputed ops v = expectedOf ops v.taskType v.x v.y := by
  unfold recomputed expectedOf
  cases v.taskType <;> rfl

theorem expectedOf_y {T : Type} (ops : Arith T) (k : Task) (x y z : T) (h : k ≠ Task.Pow) :
    expectedOf ops k x y = expectedOf ops k x z := by
  cases k
  · rfl
  · rfl
  · exact absurd rfl h

/-! ### Claims on the validator -/

/-- C5 (amended). The test applied to `d = recomputed - stored` is `(d > 0.1) || (d < 0.1)`.
Where the comparison of `T` orders every value that is not a NaN against `0.1`, the test
holds for every `d` that is neither NaN nor `0.1`, whatever its magnitude. The loop ends at
the first pass whose entry satisfies the test and `IsCorrect` returns `true`: so it does on
every input whose first entry has a difference that is neither NaN nor `0.1`, and on every
text that begins with the line written by `main` for such an entry, whatever follows it. -/
theorem C5_first_entry_pass {T : Type} (ops : Arith T) (isNaN : T → Bool)
    (hord : ∀ d, isNaN d = false → d ≠ ops.tol →
      ops.lt ops.tol d = true ∨ ops.lt d ops.tol = true) :
    (∀ d, offTolerance ops d = (ops.lt ops.tol d || ops.lt d ops.tol)) ∧
    (∀ d, isNaN d = false → d ≠ ops.tol → offTolerance ops d = true) ∧
    (∀ (fuel : Nat) (v : Vars T), v.inputStream.fail = false → v.okFlag = false →
      offTolerance ops
        (ops.sub (recomputed ops (readEntry ops v)) (readEntry ops v).res) = true →
      IsCorrectLoop ops (fuel + 2) v = some true) ∧
    (∀ (u : Uninit T) (input : List Char),
      isNaN (ops.sub (recomputed ops (readEntry ops (initialVars u input)))
        (readEntry ops (initialVars u input)).res) = false →
      ops.sub (recomputed ops (readEntry ops (initialVars u input)))
        (readEntry ops (initialVars u input)).res ≠ ops.tol →
      IsCorrect ops u input = some true) ∧
    (∀ (rt : T → T) (u : Uninit T) (e : String × T × T × T) (later : List Char),
      Readable ops rt 0 e →
      isNaN (ops.sub (expectedOf ops (taskOfName e.1) (rt e.2.2.1) (rt e.2.2.2))
        (rt e.2.1)) = false →
      ops.sub (expectedOf ops (taskOfName e.1) (rt e.2.2.1) (rt e.2.2.2)) (rt e.2.1)
        ≠ ops.tol →
      IsCorrect ops u ((writeLine ops 0 e).data ++ later) = some true) := by
  have hoff : ∀ d, isNaN d = false → d ≠ ops.tol → offTolerance ops d = true := by
    intro d h1 h2
    unfold offTolerance
    rcases hord d h1 h2 with h | h <;> simp [h]
  have hloop : ∀ (fuel : Nat) (v : Vars T), v.inputStream.fail = false → v.okFlag = false →
      offTolerance ops
        (ops.sub (recomputed ops (readEntry ops v)) (readEntry ops v).res) = true →
      IsCorrectLoop ops (fuel + 2) v = some true := by
    intro fuel v hf hk h
    apply IsCorrectLoop_pass ops fuel v hf hk
    rw [loopBody_okFlag, h, Bool.or_true]
  refine ⟨fun d => rfl, hoff, hloop, ?_, ?_⟩
  · intro u input h1 h2
    exact hloop input.length (initialVars u input) rfl rfl (hoff _ h1 h2)
  · intro rt u e later hread h1 h2
    obtain ⟨_, _, _, r4, r5, r6, r7, _⟩ :=
      readEntry_written ops rt 0 e [] later
        (initialVars u ((writeLine ops 0 e).data ++ later)) rfl
        (by intro c hc; cases hc) initialMap_ok hread
    apply hloop _ _ rfl rfl
    rw [recomputed_eq, r4, r5, r6, r7]
    by_cases hp : e.1 = "Pow"
    · rw [if_pos hp]
      exact hoff _ h1 h2
    · rw [if_neg hp, expectedOf_y ops _ _ _ (rt e.2.2.2)
        (fun h => hp ((taskOfName_pow _).mp h))]
      exact hoff _ h1 h2

/-- C5, as stated, fails on a NaN. The log `0 Sqrt 1.00000 -4.00000` has a first entry
whose difference `sqrt(-4) - 1` is a NaN: it differs from `0.1`, neither comparison holds,
and `IsCorrect` returns `false`. -/
theorem C5_nan_counterexample :
    Fix5.sub (recomputed fixOps
        (readEntry fixOps (initialVars someUninit "0 Sqrt 1.00000 -4.00000\n".data)))
      (readEntry fixOps (initialVars someUninit "0 Sqrt 1.00000 -4.00000\n".data)).res
      ≠ fixOps.tol ∧
    (readEntry fixOps (initialVars someUninit "0 Sqrt 1.00000 -4.00000\n".data)).x
      = some (-400000) ∧
    (readEntry fixOps (initialVars someUninit "0 Sqrt 1.00000 -4.00000\n".data)).res
      = some 100000 ∧
    (readEntry fixOps (initialVars someUninit "0 Sqrt 1.00000 -4.00000\n".data)).taskType
      = Task.Sqrt ∧
    offTolerance fixOps (Fix5.sub (Fix5.sqrt (some (-400000))) (some 100000)) = false ∧
    IsCorrect fixOps someUninit "0 Sqrt 1.00000 -4.00000\n".data = some false := by
  decide

/-- C6. On the log `0 Pow 3.00000 2.00000 3.00000`, `1 Sqrt 1.00000 9.00000` every entry is
off by more than the tolerance (`2^3 - 3 = 5` and `sqrt 9 - 1 = 2`), and `IsCorrect`
returns `true`. -/
theorem C6_off_tolerance_log_passes :
    Fix5.sub (fun_pow fixOps (some 200000) (some 300000)) (some 300000) = some 500000 ∧
    Fix5.sub (fun_sqrt fixOps (some 900000) (some 0)) (some 100000) = some 200000 ∧
    fixOps.tol = some 10000 ∧
    IsCorrect fixOps someUninit
      "0 Pow 3.00000 2.00000 3.00000\n1 Sqrt 1.00000 9.00000\n".data = some true ∧
    IsCorrect fixOps someUninit "1 Sqrt 1.00000 9.00000\n".data = some true := by
  decide

/-- C7, as stated, fails. The log `0 Foo 0.00000 0.00000` has an unknown operation name; the
entry is read as a `Sin` entry with four fields and `IsCorrect` returns `true`. -/
theorem C7_unknown_name_counterexample :
    (readEntry fixOps (initialVars someUninit "0 Foo 0.00000 0.00000\n".data)).taskString
      = "Foo" ∧
    (readEntry fixOps (initialVars someUninit "0 Foo 0.00000 0.00000\n".data)).taskType
      = Task.Sin ∧
    (readEntry fixOps (initialVars someUninit "0 Foo 0.00000 0.00000\n".data)).inputStream.fail
      = false ∧
    IsCorrect fixOps someUninit "0 Foo 0.00000 0.00000\n".data = some true := by
  decide

/-- C7 (amended). An entry whose operation name is none of `Sin`, `Sqrt`, `Pow` is neither
rejected nor reported: the lookup `map[taskString]` yields `Sin` for it, at the first entry
and at every later one, so `sin(x) - res` is what is compared, and `IsCorrect` returns
`true` when that difference is above or below `0.1`. -/
theorem C7_unknown_name_is_sin {T : Type} (ops : Arith T) (v : Vars T) (hmap : MapOk v.map)
    (_h1 : (readEntry ops v).taskString ≠ "Sin") (h2 : (readEntry ops v).taskString ≠ "Sqrt")
    (h3 : (readEntry ops v).taskString ≠ "Pow") :
    (readEntry ops v).taskType = Task.Sin ∧
    MapOk (readEntry ops v).map ∧
    recomputed ops (readEntry ops v) = ops.sin (readEntry ops v).x ∧
    (loopBody ops v).okFlag =
      (v.okFlag ||
        offTolerance ops (ops.sub (ops.sin (readEntry ops v).x) (readEntry ops v).res)) ∧
    (∀ fuel : Nat, v.inputStream.fail = false → v.okFlag = false →
      offTolerance ops (ops.sub (ops.sin (readEntry ops v).x) (readEntry ops v).res) = true →
      IsCorrectLoop ops (fuel + 2) v = some true) := by
  obtain ⟨ht, hm⟩ := readEntry_map ops v hmap
  have hsin : (readEntry ops v).taskType = Task.Sin := by
    rw [ht]; exact taskOfName_unknown _ h2 h3
  have hrec : recomputed ops (readEntry ops v) = ops.sin (readEntry ops v).x := by
    rw [recomputed_eq, hsin]; rfl
  have hok := loopBody_okFlag ops v
  rw [hrec] at hok
  refine ⟨hsin, hm, hrec, hok, ?_⟩
  intro fuel hf hk hoff
  apply IsCorrectLoop_pass ops fuel v hf hk
  rw [hok, hoff, Bool.or_true]

/-- C8, as stated, fails on a NaN. The worker logs `sqrt(-1)` as a NaN; in the text written
for this log the reader finds the position and the name, fails on the value, and leaves
`x` as it was. -/
theorem C8_nan_counterexample :
    resultOf fixOps (Task.Sqrt, some (-100000), some 0)
      = ("Sqrt", none, some (-100000), some 0) ∧
    (loopBody fixOps (initialVars someUninit
      (writeLog fixOps [resultOf fixOps (Task.Sqrt, some (-100000), some 0)]).data)).taskString
      = "Sqrt" ∧
    (loopBody fixOps (initialVars someUninit
      (writeLog fixOps [resultOf fixOps (Task.Sqrt, some (-100000), some 0)]).data)).inputStream.fail
      = true ∧
    (loopBody fixOps (initialVars someUninit
      (writeLog fixOps [resultOf fixOps (Task.Sqrt, some (-100000), some 0)]).data)).res
      ≠ none ∧
    (loopBody fixOps (initialVars someUninit
      (writeLog fixOps [resultOf fixOps (Task.Sqrt, some (-100000), some 0)]).data)).x
      ≠ some (-100000) := by
  decide

/-- C8 (amended). Persisted format. The writer of `main` emits for the entry at position `i` the
fields `i`, name, value, `x` in that order, separated by blanks, and a fifth field `y`
exactly when the name is `Pow`, then a newline. When extraction reads back each written
field (`rt v` for the text of `v`), the reader of `IsCorrect`, pass after pass, recovers from
the written text the position, name, value and `x` of each entry, and `y` for a `Pow` entry,
and after the pass number `k + 1` the unread text is the newline that ends entry `k` followed
by the text of the entries after `k`. The worker's results for `pow(2, 3)` and `sqrt(9)`
are written as `0 Pow 8.00000 2.00000 3.00000` and `0 Sqrt 3.00000 9.00000`. -/
theorem C8_round_trip {T : Type} (ops : Arith T) (rt : T → T)
    (res : List (String × T × T × T)) (u : Uninit T) (hread : ReadableFrom ops rt 0 res) :
    (∀ (i : Nat) (e : String × T × T × T),
      writeLine ops i e =
        if e.1 = "Pow" then
          ops.fmtSize i ++ " " ++ e.1 ++ " " ++ ops.fmt e.2.1 ++ " " ++ ops.fmt e.2.2.1
            ++ " " ++ ops.fmt e.2.2.2 ++ "\n"
        else
          ops.fmtSize i ++ " " ++ e.1 ++ " " ++ ops.fmt e.2.1 ++ " " ++ ops.fmt e.2.2.1
            ++ "\n") ∧
    (∀ (k : Nat) (e : String × T × T × T), res[k]? = some e →
      ((loopBody ops)^[k + 1] (initialVars u (writeLog ops res).data)).inputStream =
        { chars := '\n' :: (writeFrom ops (k + 1) (res.drop (k + 1))).data, fail := false } ∧
      ((loopBody ops)^[k + 1] (initialVars u (writeLog ops res).data)).id = k ∧
      ((loopBody ops)^[k + 1] (initialVars u (writeLog ops res).data)).taskString = e.1 ∧
      ((loopBody ops)^[k + 1] (initialVars u (writeLog ops res).data)).taskType
        = taskOfName e.1 ∧
      ((loopBody ops)^[k + 1] (initialVars u (writeLog ops res).data)).res = rt e.2.1 ∧
      ((loopBody ops)^[k + 1] (initialVars u (writeLog ops res).data)).x = rt e.2.2.1 ∧
      (e.1 = "Pow" →
        ((loopBody ops)^[k + 1] (initialVars u (writeLog ops res).data)).y = rt e.2.2.2)) ∧
    writeLog fixOps [resultOf fixOps (Task.Pow, some 200000, some 300000)]
      = "0 Pow 8.00000 2.00000 3.00000\n" ∧
    writeLog fixOps [resultOf fixOps (Task.Sqrt, some 900000, some 0)]
      = "0 Sqrt 3.00000 9.00000\n" := by
  refine ⟨fun i e => rfl, ?_, by decide, by decide⟩
  intro k e hk
  have := loopBody_written ops rt res 0 [] (initialVars u (writeLog ops res).data) rfl
    (by intro c hc; cases hc) initialMap_ok hread k e hk
  simpa using this

/-! ### The reference instance reads back what it writes -/

theorem isDigit_of_isspace (d : Char) (h : isspace d = true) : isDigit d = false := by
  unfold isspace at h
  unfold isDigit
  simp only [Bool.or_eq_true, beq_iff_eq, Bool.and_eq_true, decide_eq_true_eq] at h
  simp only [Bool.and_eq_false_iff, decide_eq_false_iff_not]
  omega

theorem isspace_of_isDigit (d : Char) (h : isDigit d = true) : isspace d = false := by
  cases hs : isspace d with
  | false => rfl
  | true => rw [isDigit_of_isspace d hs] at h; cases h

theorem parseSizeRef_digits (ds : List Char) (d : Char) (rest : List Char)
    (hds : ∀ c ∈ ds, isDigit c = true) (hne : ds ≠ []) (hlt : digitsValue ds < SIZE_MOD)
    (hd : isspace d = true) :
    parseSizeRef (ds ++ d :: rest) = Extracted.ok (digitsValue ds) ds.length := by
  have htake : (ds ++ d :: rest).takeWhile isDigit = ds := by
    rw [List.takeWhile_append_of_pos hds, List.takeWhile_cons,
      if_neg (by simp [isDigit_of_isspace d hd])]
    simp
  unfold parseSizeRef
  simp only [htake]
  rw [if_neg hne, if_pos hlt]

theorem Fix5_parse_digits (ds fs : List Char) (d : Char) (rest : List Char)
    (hds : ∀ c ∈ ds, isDigit c = true) (hne : ds ≠ [])
    (hfs : ∀ c ∈ fs, isDigit c = true) (hfl : fs.length = 5) (hd : isspace d = true) :
    Fix5.parse (ds ++ Char.ofNat 46 :: (fs ++ d :: rest)) =
      Extracted.ok (some (Int.ofNat (digitsValue ds * 100000 + digitsValue fs)))
        (ds ++ Char.ofNat 46 :: fs).length := by
  have hdn : isDigit d = false := isDigit_of_isspace d hd
  obtain ⟨c, cs, rfl⟩ : ∃ c cs, ds = c :: cs := by
    cases ds with
    | nil => exact absurd rfl hne
    | cons c cs => exact ⟨c, cs, rfl⟩
  have hc : isDigit c = true := hds c (List.mem_cons_self _ _)
  have hneg : ¬ ((c :: cs ++ Char.ofNat 46 :: (fs ++ d :: rest)).head? = some (Char.ofNat 45)) := by
    intro h
    simp only [List.cons_append, List.head?_cons, Option.some.injEq] at h
    rw [h] at hc
    exact absurd hc (by decide)
  have htake : (c :: cs ++ Char.ofNat 46 :: (fs ++ d :: rest)).takeWhile isDigit = c :: cs := by
    rw [List.takeWhile_append_of_pos hds, List.takeWhile_cons, if_neg (by decide)]
    simp
  have hdrop : (c :: cs ++ Char.ofNat 46 :: (fs ++ d :: rest)).dropWhile isDigit
      = Char.ofNat 46 :: (fs ++ d :: rest) := by
    rw [List.dropWhile_append_of_pos hds, List.dropWhile_cons, if_neg (by decide)]
  have hft : (fs ++ d :: rest).takeWhile isDigit = fs := by
    rw [List.takeWhile_append_of_pos hfs, List.takeWhile_cons, if_neg (by simp [hdn])]
    simp
  have hfne : fs ≠ [] := by
    intro h; rw [h] at hfl; cases hfl
  have hpad : (fs ++ List.replicate 5 (Char.ofNat 48)).take 5 = fs := by
    rw [← hfl, List.take_left]
  unfold Fix5.parse
  simp only [hneg, decide_False, Bool.false_eq_true, if_false, htake, hdrop, List.head?_cons,
    List.tail_cons, decide_True, if_true, hft, hpad, if_neg hfne]
  simp [hfl]

theorem fixOps_roundTrip (v : Int) (ds fs : List Char)
    (hfmt : (fixOps.fmt (some v)).data = ds ++ Char.ofNat 46 :: fs)
    (hds : ∀ c ∈ ds, isDigit c = true) (hne : ds ≠ [])
    (hfs : ∀ c ∈ fs, isDigit c = true) (hfl : fs.length = 5)
    (hval : Int.ofNat (digitsValue ds * 100000 + digitsValue fs) = v) :
    RoundTrip fixOps id (some v) := by
  constructor
  · rw [hfmt]
    cases ds with
    | nil => exact absurd rfl hne
    | cons c cs =>
      exact ⟨c, _, rfl, isspace_of_isDigit c (hds c (List.mem_cons_self _ _))⟩
  · intro d rest hd
    rw [hfmt]
    have := Fix5_parse_digits ds fs d rest hds hne hfs hfl hd
    rw [hval] at this
    simpa using this

theorem fixOps_sizeRoundTrip (i : Nat) (hds : ∀ c ∈ Nat.toDigits 10 i, isDigit c = true)
    (hne : Nat.toDigits 10 i ≠ []) (hval : digitsValue (Nat.toDigits 10 i) = i)
    (hlt : i < SIZE_MOD) : SizeRoundTrip fixOps i := by
  constructor
  · show StartsNonBlank (Nat.toDigits 10 i)
    cases h : Nat.toDigits 10 i with
    | nil => exact absurd h hne
    | cons c cs =>
      rw [h] at hds
      exact ⟨c, _, rfl, isspace_of_isDigit c (hds c (List.mem_cons_self _ _))⟩
  · intro d rest hd
    show parseSizeRef (Nat.toDigits 10 i ++ d :: rest) = _
    have := parseSizeRef_digits (Nat.toDigits 10 i) d rest hds hne (by rw [hval]; exact hlt) hd
    rw [hval] at this
    exact this

theorem sampleLog_readable : ReadableFrom fixOps id 0 sampleLog := by
  have r0 : RoundTrip fixOps id (some 0) :=
    fixOps_roundTrip 0 ['0'] ['0', '0', '0', '0', '0'] (by decide) (by decide) (by decide)
      (by decide) (by decide) (by decide)
  have r2 : RoundTrip fixOps id (some 200000) :=
    fixOps_roundTrip 200000 ['2'] ['0', '0', '0', '0', '0'] (by decide) (by decide) (by decide)
      (by decide) (by decide) (by decide)
  have r3 : RoundTrip fixOps id (some 300000) :=
    fixOps_roundTrip 300000 ['3'] ['0', '0', '0', '0', '0'] (by decide) (by decide) (by decide)
      (by decide) (by decide) (by decide)
  have r8 : RoundTrip fixOps id (some 800000) :=
    fixOps_roundTrip 800000 ['8'] ['0', '0', '0', '0', '0'] (by decide) (by decide) (by decide)
      (by decide) (by decide) (by decide)
  have r9 : RoundTrip fixOps id (some 900000) :=
    fixOps_roundTrip 900000 ['9'] ['0', '0', '0', '0', '0'] (by decide) (by decide) (by decide)
      (by decide) (by decide) (by decide)
  have s0 : SizeRoundTrip fixOps 0 :=
    fixOps_sizeRoundTrip 0 (by decide) (by decide) (by decide) (by decide)
  have s1 : SizeRoundTrip fixOps 1 :=
    fixOps_sizeRoundTrip 1 (by decide) (by decide) (by decide) (by decide)
  have s2 : SizeRoundTrip fixOps 2 :=
    fixOps_sizeRoundTrip 2 (by decide) (by decide) (by decide) (by decide)
  refine ⟨⟨s0, ⟨by decide, by decide⟩, r8, r2, fun _ => r3⟩,
    ⟨s1, ⟨by decide, by decide⟩, r3, r9, fun h => absurd h (by decide)⟩,
    ⟨s2, ⟨by decide, by decide⟩, r0, r0, fun h => absurd h (by decide)⟩, trivial⟩

/-! ### The claims at concrete inputs -/

theorem countKind_turns {T : Type} (k : Task) (n : Nat) (l : List (Task × T × T)) :
    countKind k (List.replicate n l).flatten = n * countKind k l := by
  induction n with
  | zero => simp [countKind]
  | succ n ih =>
    unfold countKind at *
    rw [List.replicate_succ, List.flatten_cons, List.countP_append, ih]
    ring

/-- Witness of C1: three tasks submitted with a pass in between; a stop request after one
more pass leaves one task queued and two entries logged. Three producers of 100 tasks
each: the drained log has 300 entries, 100 of each kind. -/
theorem C1_conservation_witness :
    (Work fixOps [false, true] (runEvents fixOps sampleEvents (Server.new Fix5)).1
        = some (WorkIter fixOps (runEvents fixOps sampleEvents (Server.new Fix5)).1) ∧
      (WorkIter fixOps (runEvents fixOps sampleEvents (Server.new Fix5)).1).taskQueue.length
        = 1 ∧
      (WorkIter fixOps (runEvents fixOps sampleEvents (Server.new Fix5)).1).results.length
        = (addedTasks sampleEvents).length - 1 ∧
      (WorkIter fixOps (runEvents fixOps sampleEvents (Server.new Fix5)).1).results.length
        < (addedTasks sampleEvents).length) ∧
    (∃ r, Work fixOps (List.replicate 300 false ++ [true])
        (runEvents fixOps threeProducers (Server.new Fix5)).1 = some r ∧
      r.taskQueue = [] ∧ r.results.length = 300 ∧ ∀ k, countName k r.results = 100) := by
  have hlen : (runEvents fixOps threeProducers (Server.new Fix5)).1.taskQueue.length ≤ 300 := by
    have h := (C1_conservation fixOps threeProducers).1
    have h300 : (addedTasks threeProducers).length = 300 := by
      unfold threeProducers
      rw [addedTasks_adds, length_eq_kinds, countKind_turns, countKind_turns, countKind_turns]
      decide
    omega
  have h100 : ∀ k, countKind k (addedTasks threeProducers) = 100 := by
    intro k
    unfold threeProducers
    rw [addedTasks_adds, countKind_turns]
    cases k <;> decide
  obtain ⟨r, hr, hq⟩ := (C1_conservation fixOps threeProducers).2.2.2 300 hlen
  refine ⟨⟨rfl, by decide, ?_⟩, r, hr, hq, ?_⟩
  · exact ((C1_conservation fixOps sampleEvents).2.2.1 [false, true] _ rfl).2.2.2 1
      (by decide) (by decide)
  · exact (((C1_conservation fixOps threeProducers).2.2.1 _ r hr).2.2.1 hq).2.2 h100

/-- Witness of C2: two producers, three calls, drained in three passes. -/
theorem C2_fifo_witness :
    sampleCalls.length ≤ 3 ∧
    ∃ r, Work fixOps (List.replicate 3 false ++ [true])
          (runEvents fixOps ((sampleCalls.map Prod.snd).map Event.ofTask)
            (Server.new Fix5)).1 = some r ∧
      r.taskQueue = [] ∧
      r.results = (sampleCalls.map Prod.snd).map (resultOf fixOps) ∧
      attributed 0 sampleCalls r.results = (callsOf 0 sampleCalls).map (resultOf fixOps) ∧
      attributed 1 sampleCalls r.results = (callsOf 1 sampleCalls).map (resultOf fixOps) :=
  ⟨by decide,
    match (C2_fifo fixOps sampleCalls 3).2 with
    | ⟨r, h1, _, _, h4⟩ =>
      ⟨r, h1, (h4 (by decide)).1, (h4 (by decide)).2.1, (h4 (by decide)).2.2.2 0,
        (h4 (by decide)).2.2.2 1⟩⟩

/-- Witness of C3: a pass on the queue `sampleTasks`, and a pass on the empty queue. -/
theorem C3_worker_step_witness :
    (WorkIter fixOps { taskQueue := sampleTasks, taskId := 3, results := [] }).results
      = [] ++ [resultOf fixOps (Task.Pow, some 200000, some 300000)] ∧
    (WorkIter fixOps { taskQueue := sampleTasks, taskId := 3, results := [] }).taskQueue
      = [(Task.Sqrt, some 900000, some 0), (Task.Sin, some 0, some 100000)] ∧
    resultOf fixOps (Task.Pow, some 200000, some 300000)
      = ("Pow", Fix5.pow (some 200000) (some 300000), some 200000, some 300000) ∧
    WorkIter fixOps (Server.new Fix5) = Server.new Fix5 :=
  ⟨((C3_worker_step fixOps { taskQueue := sampleTasks, taskId := 3, results := [] }).1
      Task.Pow (some 200000) (some 300000) _ rfl).2.2.2.1,
   ((C3_worker_step fixOps { taskQueue := sampleTasks, taskId := 3, results := [] }).1
      Task.Pow (some 200000) (some 300000) _ rfl).2.2.2.2.1,
   ((C3_worker_step fixOps { taskQueue := sampleTasks, taskId := 3, results := [] }).1
      Task.Pow (some 200000) (some 300000) _ rfl).2.2.2.2.2.2,
   (C3_worker_step fixOps (Server.new Fix5)).2.1 rfl⟩

/-- Witness of C4: three calls with a pass of the worker in between return 0, 1, 2. -/
theorem C4_submission_ids_witness :
    addCount sampleEvents ≤ 2 ^ 64 ∧
    (runEvents fixOps sampleEvents (Server.new Fix5)).2 = List.range (addCount sampleEvents) ∧
    (runEvents fixOps sampleEvents (Server.new Fix5)).2[2]? = some 2 :=
  ⟨by decide, (C4_submission_ids fixOps).2.2.2 sampleEvents (by decide),
    (C4_submission_ids fixOps).2.2.1 sampleEvents 2 (by decide) (by decide)⟩

theorem Fix5_ordered (d : Fix5) (h1 : Option.isNone d = false) (h2 : d ≠ fixOps.tol) :
    fixOps.lt fixOps.tol d = true ∨ fixOps.lt d fixOps.tol = true := by
  cases d with
  | none => cases h1
  | some v =>
    have hv : v ≠ 10000 := fun h => h2 (by rw [h]; rfl)
    show Fix5.lt (some 10000) (some v) = true ∨ Fix5.lt (some v) (some 10000) = true
    simp only [Fix5.lt, decide_eq_true_eq]
    omega

/-- Witness of C5: the log `0 Pow 3.00000 2.00000 3.00000` followed by text that is not an
entry, and the line written for the worker's result of `pow(2, 3)` followed by an entry
that is off by 4. -/
theorem C5_first_entry_pass_witness :
    IsCorrect fixOps someUninit "0 Pow 3.00000 2.00000 3.00000\nnot an entry".data
      = some true ∧
    IsCorrect fixOps someUninit
      ((writeLine fixOps 0 (resultOf fixOps (Task.Pow, some 200000, some 300000))).data
        ++ "1 Sqrt 7.00000 9.00000\n".data) = some true :=
  ⟨(C5_first_entry_pass fixOps Option.isNone Fix5_ordered).2.2.2.1 someUninit _
      (by decide) (by decide),
   (C5_first_entry_pass fixOps Option.isNone Fix5_ordered).2.2.2.2 id someUninit _ _
      sampleLog_readable.1 (by decide) (by decide)⟩

/-- Witness of C7: the entry `0 Foo 0.00000 0.00000`. -/
theorem C7_unknown_name_is_sin_witness :
    (readEntry fixOps (initialVars someUninit "0 Foo 0.00000 0.00000\n".data)).taskString
      = "Foo" ∧
    (readEntry fixOps (initialVars someUninit "0 Foo 0.00000 0.00000\n".data)).taskType
      = Task.Sin ∧
    IsCorrectLoop fixOps (0 + 2) (initialVars someUninit "0 Foo 0.00000 0.00000\n".data)
      = some true :=
  ⟨by decide,
   (C7_unknown_name_is_sin fixOps (initialVars someUninit "0 Foo 0.00000 0.00000\n".data)
      initialMap_ok (by decide) (by decide) (by decide)).1,
   (C7_unknown_name_is_sin fixOps (initialVars someUninit "0 Foo 0.00000 0.00000\n".data)
      initialMap_ok (by decide) (by decide) (by decide)).2.2.2.2 0 rfl rfl (by decide)⟩

/-- Witness of C8: the second pass over the text written for `sampleLog` reads the
entry `1 Sqrt 3.00000 9.00000`. -/
theorem C8_round_trip_witness :
    writeLog fixOps sampleLog
      = "0 Pow 8.00000 2.00000 3.00000\n1 Sqrt 3.00000 9.00000\n2 Sin 0.00000 0.00000\n" ∧
    ((loopBody fixOps)^[1 + 1] (initialVars someUninit (writeLog fixOps sampleLog).data)).id
      = 1 ∧
    ((loopBody fixOps)^[1 + 1]
      (initialVars someUninit (writeLog fixOps sampleLog).data)).taskString = "Sqrt" ∧
    ((loopBody fixOps)^[1 + 1] (initialVars someUninit (writeLog fixOps sampleLog).data)).res
      = some 300000 ∧
    ((loopBody fixOps)^[1 + 1] (initialVars someUninit (writeLog fixOps sampleLog).data)).x
      = some 900000 :=
  ⟨by decide,
   ((C8_round_trip fixOps id sampleLog someUninit sampleLog_readable).2.1 1
      ("Sqrt", some 300000, some 900000, some 0) (by decide)).2.1,
   ((C8_round_trip fixOps id sampleLog someUninit sampleLog_readable).2.1 1
      ("Sqrt", some 300000, some 900000, some 0) (by decide)).2.2.1,
   ((C8_round_trip fixOps id sampleLog someUninit sampleLog_readable).2.1 1
      ("Sqrt", some 300000, some 900000, some 0) (by decide)).2.2.2.2.1,
   ((C8_round_trip fixOps id sampleLog someUninit sampleLog_readable).2.1 1
      ("Sqrt", some 300000, some 900000, some 0) (by decide)).2.2.2.2.2.1⟩

/-- Witness of C9: `Start(3)` and `Start(-2)` of a `Pow` client on a fresh server. -/
theorem C9_producer_batch_witness :
    (∀ k, 0 ≤ sampleRand k) ∧
    (∃ args : List (Int × Int), args.length = 3 ∧
      (∀ a ∈ args, 0 ≤ a.1 ∧ a.1 < 100 ∧ 0 ≤ a.2 ∧ a.2 < 4) ∧
      Start fixOps Task.Pow true sampleRand 3 (Server.new Fix5) =
        some ((runEvents fixOps (startEvents fixOps Task.Pow args) (Server.new Fix5)).1, 6)) ∧
    Start fixOps Task.Pow true sampleRand (-2) (Server.new Fix5) = some (Server.new Fix5, 0) :=
  ⟨fun k => Int.ofNat_nonneg _,
   match C9_producer_batch fixOps Task.Pow true sampleRand 3 (Server.new Fix5)
      (fun k => Int.ofNat_nonneg _) with
   | ⟨args, h1, h2, h3, _⟩ => ⟨args, h1, h2, h3⟩,
   match C9_producer_batch fixOps Task.Pow true sampleRand (-2) (Server.new Fix5)
      (fun k => Int.ofNat_nonneg _) with
   | ⟨_, _, _, _, _, _, _, h⟩ => h (by decide)⟩

/-! ### Lock discipline of the threads -/

theorem initSys_inv {T : Type} (ops : Arith T) (todo : Nat → List (Task × T × T)) :
    SysInv ops (initSys todo) := by
  refine ⟨?_, ?_, ?_, ?_, ?_, ?_, ?_⟩ <;> simp [initSys, WPc.holds, PPc.holds, pendingQueue,
    Server.new]

theorem head?_append_of_ne_nil {α : Type} (l : List α) (x : α) (h : l ≠ []) :
    (l ++ [x]).head? = l.head? := by
  cases l with
  | nil => exact absurd rfl h
  | cons a l => rfl

set_option maxHeartbeats 1000000 in
theorem stepWorker_inv {T : Type} (ops : Arith T) (st : Sys T) (h : SysInv ops st) :
    SysInv ops (stepWorker ops st) := by
  obtain ⟨h1, h2, h3, h4, h5, h6, h7⟩ := h
  unfold stepWorker
  cases hpc : st.wpc with
  | L83 =>
    dsimp only
    split
    · refine ⟨?_, h2, h3, ?_, ?_, ?_, ?_⟩ <;> simp_all [WPc.holds, pendingQueue]
    · refine ⟨?_, h2, h3, ?_, ?_, ?_, ?_⟩ <;> simp_all [WPc.holds, pendingQueue]
  | L85 =>
    dsimp only
    cases hm : st.mutex with
    | none =>
      dsimp only
      refine ⟨?_, ?_, h3, ?_, ?_, ?_, ?_⟩ <;> simp_all [WPc.holds, pendingQueue]
    | some o => exact ⟨h1, h2, h3, h4, h5, h6, h7⟩
  | L86 =>
    dsimp only
    split
    · refine ⟨?_, h2, h3, ?_, ?_, ?_, ?_⟩ <;> simp_all [WPc.holds, pendingQueue]
    · refine ⟨?_, h2, h3, ?_, ?_, ?_, ?_⟩ <;> simp_all [WPc.holds, pendingQueue]
  | L87 =>
    dsimp only
    refine ⟨?_, ?_, h3, ?_, ?_, ?_, ?_⟩ <;> simp_all [WPc.holds, pendingQueue]
  | L90 =>
    dsimp only
    refine ⟨?_, ?_, h3, ?_, ?_, ?_, ?_⟩ <;> simp_all [WPc.holds, pendingQueue]
  | L91 =>
    dsimp only
    cases hm : st.mutex with
    | none =>
      dsimp only
      refine ⟨?_, ?_, h3, ?_, ?_, ?_, ?_⟩ <;> simp_all [WPc.holds, pendingQueue]
    | some o => exact ⟨h1, h2, h3, h4, h5, h6, h7⟩
  | L92 =>
    dsimp only
    have hne := h4 (Or.inr (Or.inr hpc))
    obtain ⟨t, q, hq⟩ : ∃ t q, st.server.taskQueue = t :: q := by
      cases hq : st.server.taskQueue with
      | nil => exact absurd hq hne
      | cons t q => exact ⟨t, q, rfl⟩
    refine ⟨?_, h2, h3, ?_, ?_, ?_, ?_⟩ <;> simp_all [WPc.holds, pendingQueue]
  | L93 =>
    dsimp only
    refine ⟨?_, ?_, h3, ?_, ?_, ?_, ?_⟩ <;> simp_all [WPc.holds, pendingQueue]
  | L94 =>
    dsimp only
    obtain ⟨t, ht, hhead⟩ := h5 (Or.inr (Or.inl hpc))
    rw [ht]
    dsimp only
    obtain ⟨q, hq⟩ : ∃ q, st.server.taskQueue = t :: q := by
      cases hq : st.server.taskQueue with
      | nil => rw [hq] at hhead; cases hhead
      | cons a q =>
        rw [hq] at hhead
        simp only [List.head?_cons, Option.some.injEq] at hhead
        exact ⟨q, by rw [hhead]⟩
    refine ⟨?_, h2, h3, ?_, ?_, ?_, ?_⟩ <;> simp_all [WPc.holds, pendingQueue]
  | L107 =>
    dsimp only
    cases hm : st.mutex with
    | none =>
      dsimp only
      refine ⟨?_, ?_, h3, ?_, ?_, ?_, ?_⟩ <;> simp_all [WPc.holds, pendingQueue]
    | some o => exact ⟨h1, h2, h3, h4, h5, h6, h7⟩
  | L108 =>
    dsimp only
    refine ⟨?_, h2, h3, ?_, ?_, ?_, ?_⟩ <;> simp_all [WPc.holds, pendingQueue, WorkPop]
  | L109 =>
    dsimp only
    refine ⟨?_, ?_, h3, ?_, ?_, ?_, ?_⟩ <;> simp_all [WPc.holds, pendingQueue]
  | done => exact ⟨h1, h2, h3, h4, h5, h6, h7⟩

theorem tail_append_of_ne_nil {α : Type} (l : List α) (x : α) (h : l ≠ []) :
    (l ++ [x]).tail = l.tail ++ [x] := by
  cases l with
  | nil => exact absurd rfl h
  | cons a l => rfl

theorem ne_nil_of_head? {α : Type} (l : List α) (t : α) (h : l.head? = some t) : l ≠ [] := by
  intro hl
  rw [hl] at h
  cases h

set_option maxHeartbeats 1000000 in
theorem stepProducer_inv {T : Type} (ops : Arith T) (st : Sys T) (p : Nat)
    (h : SysInv ops st) : SysInv ops (stepProducer st p) := by
  obtain ⟨h1, h2, h3, h4, h5, h6, h7⟩ := h
  unfold stepProducer
  cases htodo : (st.producers p).todo with
  | nil => exact ⟨h1, h2, h3, h4, h5, h6, h7⟩
  | cons t rest =>
    dsimp only
    cases hpc : (st.producers p).pc with
    | L124 =>
      dsimp only
      cases hm : st.mutex with
      | some o => exact ⟨h1, h2, h3, h4, h5, h6, h7⟩
      | none =>
        dsimp only
        have hw : st.wpc.holds = false := by
          cases hh : st.wpc.holds with
          | false => rfl
          | true => rw [h1.mpr hh] at hm; cases hm
        refine ⟨?_, ?_, ?_, h4, h5, h6, h7⟩
        · show some (p + 1) = some 0 ↔ st.wpc.holds = true
          simp [hw]
        · intro i
          show some (p + 1) = some (i + 1) ↔
            ((if i = p then { st.producers p with pc := PPc.L125 }
              else st.producers i) : Producer T).pc.holds = true
          by_cases hi : i = p
          · subst hi; simp [PPc.holds]
          · have := h2 i
            rw [hm] at this
            rw [if_neg hi]
            constructor
            · intro he
              exact absurd (by injection he with he; omega) hi
            · intro hh
              exact absurd (this.mpr hh) (by simp)
        · intro i
          show ((if i = p then { st.producers p with pc := PPc.L125 }
              else st.producers i) : Producer T).pc.holds = true →
            ((if i = p then { st.producers p with pc := PPc.L125 }
              else st.producers i) : Producer T).todo ≠ []
          by_cases hi : i = p
          · subst hi
            rw [if_pos rfl]
            intro _
            show (st.producers i).todo ≠ []
            rw [htodo]
            exact List.cons_ne_nil _ _
          · rw [if_neg hi]
            exact h3 i
    | L125 =>
      dsimp only
      have hown : st.mutex = some (p + 1) := (h2 p).mpr (by rw [hpc]; rfl)
      have hw : st.wpc.holds = false := by
        cases hh : st.wpc.holds with
        | false => rfl
        | true => rw [h1.mpr hh] at hown; injection hown with he; omega
      refine ⟨h1, ?_, ?_, ?_, ?_, h6, ?_⟩
      · intro i
        show st.mutex = some (i + 1) ↔
          ((if i = p then { st.producers p with pc := PPc.L126 }
            else st.producers i) : Producer T).pc.holds = true
        by_cases hi : i = p
        · subst hi; simp [PPc.holds, hown]
        · rw [if_neg hi]; exact h2 i
      · intro i
        show ((if i = p then { st.producers p with pc := PPc.L126 }
            else st.producers i) : Producer T).pc.holds = true →
          ((if i = p then { st.producers p with pc := PPc.L126 }
            else st.producers i) : Producer T).todo ≠ []
        by_cases hi : i = p
        · subst hi
          rw [if_pos rfl]
          intro _
          show (st.producers i).todo ≠ []
          rw [htodo]
          exact List.cons_ne_nil _ _
        · rw [if_neg hi]
          exact h3 i
      · intro _
        show st.server.taskQueue ++ [t] ≠ []
        simp
      · intro hc
        obtain ⟨t1, ht1, hh1⟩ := h5 hc
        refine ⟨t1, ht1, ?_⟩
        show (st.server.taskQueue ++ [t]).head? = some t1
        rw [head?_append_of_ne_nil _ _ (ne_nil_of_head? _ _ hh1)]
        exact hh1
      · show st.server.results ++ (pendingQueue
            (setProducer { st with
              server := { st.server with taskQueue := st.server.taskQueue ++ [t] },
              enqueued := st.enqueued ++ [t] } p
              { st.producers p with pc := PPc.L126 })).map (resultOf ops)
          = (st.enqueued ++ [t]).map (resultOf ops)
        have hp : pendingQueue
            (setProducer { st with
              server := { st.server with taskQueue := st.server.taskQueue ++ [t] },
              enqueued := st.enqueued ++ [t] } p
              { st.producers p with pc := PPc.L126 }) = pendingQueue st ++ [t] := by
          unfold pendingQueue setProducer
          dsimp only
          cases hwpc : st.wpc <;> dsimp only
          · obtain ⟨t1, _, hh1⟩ := h5 (Or.inr (Or.inr (Or.inl hwpc)))
            exact tail_append_of_ne_nil _ _ (ne_nil_of_head? _ _ hh1)
          · rw [hwpc] at hw; cases hw
        rw [hp, List.map_append, ← List.append_assoc, h7, List.map_append]
    | L126 =>
      dsimp only
      have hown : st.mutex = some (p + 1) := (h2 p).mpr (by rw [hpc]; rfl)
      refine ⟨h1, ?_, ?_, h4, h5, h6, h7⟩
      · intro i
        show st.mutex = some (i + 1) ↔
          ((if i = p then { st.producers p with pc := PPc.L127, ret := st.server.taskId }
            else st.producers i) : Producer T).pc.holds = true
        by_cases hi : i = p
        · subst hi; simp [PPc.holds, hown]
        · rw [if_neg hi]; exact h2 i
      · intro i
        show ((if i = p then { st.producers p with pc := PPc.L127, ret := st.server.taskId }
            else st.producers i) : Producer T).pc.holds = true →
          ((if i = p then { st.producers p with pc := PPc.L127, ret := st.server.taskId }
            else st.producers i) : Producer T).todo ≠ []
        by_cases hi : i = p
        · subst hi
          rw [if_pos rfl]
          intro _
          show (st.producers i).todo ≠ []
          rw [htodo]
          exact List.cons_ne_nil _ _
        · rw [if_neg hi]
          exact h3 i
    | L127 =>
      dsimp only
      have hown : st.mutex = some (p + 1) := (h2 p).mpr (by rw [hpc]; rfl)
      have hw : st.wpc.holds = false := by
        cases hh : st.wpc.holds with
        | false => rfl
        | true => rw [h1.mpr hh] at hown; injection hown with he; omega
      refine ⟨?_, ?_, ?_, h4, h5, h6, h7⟩
      · show (none : Option Nat) = some 0 ↔ st.wpc.holds = true
        simp [hw]
      · intro i
        show (none : Option Nat) = some (i + 1) ↔
          ((if i = p then
              { pc := PPc.L124, todo := rest, ret := (st.producers p).ret,
                ids := (st.producers p).ids ++ [(st.producers p).ret] }
            else st.producers i) : Producer T).pc.holds = true
        by_cases hi : i = p
        · subst hi; simp [PPc.holds]
        · rw [if_neg hi]
          have := h2 i
          rw [hown] at this
          constructor
          · intro he; cases he
          · intro hh
            have := this.mpr hh
            injection this with he
            exact absurd (by omega) hi
      · intro i
        show ((if i = p then
              { pc := PPc.L124, todo := rest, ret := (st.producers p).ret,
                ids := (st.producers p).ids ++ [(st.producers p).ret] }
            else st.producers i) : Producer T).pc.holds = true →
          ((if i = p then
              { pc := PPc.L124, todo := rest, ret := (st.producers p).ret,
                ids := (st.producers p).ids ++ [(st.producers p).ret] }
            else st.producers i) : Producer T).todo ≠ []
        by_cases hi : i = p
        · subst hi
          rw [if_pos rfl]
          intro hh
          cases hh
        · rw [if_neg hi]
          exact h3 i

theorem stepSys_inv {T : Type} (ops : Arith T) (st : Sys T) (c : Choice)
    (h : SysInv ops st) : SysInv ops (stepSys ops st c) := by
  cases c with
  | worker => exact stepWorker_inv ops st h
  | producer p => exact stepProducer_inv ops st p h
  | stop =>
    obtain ⟨h1, h2, h3, h4, h5, h6, h7⟩ := h
    exact ⟨h1, h2, h3, h4, h5, h6, h7⟩

theorem runSys_inv {T : Type} (ops : Arith T) (sched : List Choice) :
    ∀ st : Sys T, SysInv ops st → SysInv ops (runSys ops sched st) := by
  induction sched with
  | nil => intro st h; exact h
  | cons c cs ih => intro st h; exact ih _ (stepSys_inv ops st c h)

theorem stepWorker_shared {T : Type} (ops : Arith T) (st : Sys T)
    (q : List (Task × T × T)) (n : Nat) (h : st.wpc.accesses = false) :
    stepWorker ops (withShared st q n) = withShared (stepWorker ops st) q n := by
  obtain ⟨m, srv, stop, wpc, task, prods, enq⟩ := st
  unfold stepWorker withShared
  cases wpc <;> first
    | (exact Bool.noConfusion h)
    | (dsimp only; split <;> rfl)
    | rfl

theorem stepProducer_shared {T : Type} (st : Sys T) (p : Nat)
    (q : List (Task × T × T)) (n : Nat) (h : (st.producers p).pc.accesses = false) :
    stepProducer (withShared st q n) p = withShared (stepProducer st p) q n := by
  unfold stepProducer withShared
  dsimp only
  cases htodo : (st.producers p).todo with
  | nil => rfl
  | cons t rest =>
    dsimp only
    cases hpc : (st.producers p).pc <;> rw [hpc] at h <;> first
      | (exact Bool.noConfusion h)
      | (dsimp only; split <;> rfl)
      | rfl

/-- C10, as stated, fails: the emptiness check and the `pop` it gates are not under one
hold of the lock. In `sampleSchedule` the worker makes the check at line 86 owning the
mutex (step 7), has released it at line 91 (after 8 steps), producer 1 then owns it (after
9 steps) and emplaces a task, so that the queue grows from 1 to 2 tasks while the worker
waits at line 91 (after 12 steps); the worker has released the mutex again at line 94
(after 15 steps), before it takes it a third time for the `pop` of line 108. -/
theorem C10_window_counterexample :
    (runSys fixOps (sampleSchedule.take 6) (initSys sampleTodo)).wpc = WPc.L86 ∧
    (runSys fixOps (sampleSchedule.take 6) (initSys sampleTodo)).mutex = some 0 ∧
    (runSys fixOps (sampleSchedule.take 8) (initSys sampleTodo)).wpc = WPc.L91 ∧
    (runSys fixOps (sampleSchedule.take 8) (initSys sampleTodo)).mutex = none ∧
    (runSys fixOps (sampleSchedule.take 8) (initSys sampleTodo)).server.taskQueue.length = 1 ∧
    (runSys fixOps (sampleSchedule.take 9) (initSys sampleTodo)).wpc = WPc.L91 ∧
    (runSys fixOps (sampleSchedule.take 9) (initSys sampleTodo)).mutex = some 2 ∧
    (runSys fixOps (sampleSchedule.take 12) (initSys sampleTodo)).wpc = WPc.L91 ∧
    (runSys fixOps (sampleSchedule.take 12) (initSys sampleTodo)).server.taskQueue.length = 2 ∧
    (runSys fixOps (sampleSchedule.take 15) (initSys sampleTodo)).wpc = WPc.L94 ∧
    (runSys fixOps (sampleSchedule.take 15) (initSys sampleTodo)).mutex = none ∧
    (runSys fixOps (sampleSchedule.take 17) (initSys sampleTodo)).wpc = WPc.L108 ∧
    (runSys fixOps (sampleSchedule.take 17) (initSys sampleTodo)).mutex = some 0 := by
  decide

/-- C10 (amended). Lock discipline. In every state that the worker loop and any producers
reach under any schedule: a thread whose next statement reads or writes `taskQueue` or
`taskId` owns `queueMutex` (the statements at the other program points commute with every
change of the queue and the counter, so they neither read nor write them), and no two
threads own the mutex. The emptiness check, the read of the front and the `pop` are three
holds of the lock: the worker owns the mutex exactly at lines 86-90, 92-93 and 108-109, and
not at lines 91, 94 and 107 in between. With the single worker no update is lost there:
when the worker reads the front and when it pops, the queue is not empty, the task popped
is the task whose result was just logged, and at every moment the log followed by the
results of the tasks not yet logged is the sequence of results of the tasks emplaced so
far. -/
theorem C10_lock_discipline {T : Type} (ops : Arith T) (todo : Nat → List (Task × T × T))
    (sched : List Choice) :
    ((runSys ops sched (initSys todo)).wpc.accesses = true →
      (runSys ops sched (initSys todo)).mutex = some 0) ∧
    (∀ p, ((runSys ops sched (initSys todo)).producers p).pc.accesses = true →
      (runSys ops sched (initSys todo)).mutex = some (p + 1)) ∧
    (∀ (st : Sys T) (q : List (Task × T × T)) (n : Nat), st.wpc.accesses = false →
      stepWorker ops (withShared st q n) = withShared (stepWorker ops st) q n) ∧
    (∀ (st : Sys T) (p : Nat) (q : List (Task × T × T)) (n : Nat),
      (st.producers p).pc.accesses = false →
      stepProducer (withShared st q n) p = withShared (stepProducer st p) q n) ∧
    (∀ p, ¬ ((runSys ops sched (initSys todo)).wpc.holds = true ∧
      ((runSys ops sched (initSys todo)).producers p).pc.holds = true)) ∧
    (∀ p q, p ≠ q → ¬ (((runSys ops sched (initSys todo)).producers p).pc.holds = true ∧
      ((runSys ops sched (initSys todo)).producers q).pc.holds = true)) ∧
    ((runSys ops sched (initSys todo)).wpc = WPc.L92 ∨
        (runSys ops sched (initSys todo)).wpc = WPc.L108 →
      (runSys ops sched (initSys todo)).server.taskQueue ≠ []) ∧
    ((runSys ops sched (initSys todo)).wpc = WPc.L108 →
      ∃ t, (runSys ops sched (initSys todo)).server.taskQueue.head? = some t ∧
        (runSys ops sched (initSys todo)).server.results.getLast? = some (resultOf ops t)) ∧
    (runSys ops sched (initSys todo)).server.results ++
        (pendingQueue (runSys ops sched (initSys todo))).map (resultOf ops)
      = (runSys ops sched (initSys todo)).enqueued.map (resultOf ops) ∧
    ((runSys ops sched (initSys todo)).mutex = some 0 ↔
      (runSys ops sched (initSys todo)).wpc.holds = true) ∧
    ((runSys ops sched (initSys todo)).wpc = WPc.L91 ∨
        (runSys ops sched (initSys todo)).wpc = WPc.L94 ∨
        (runSys ops sched (initSys todo)).wpc = WPc.L107 →
      (runSys ops sched (initSys todo)).mutex ≠ some 0) := by
  obtain ⟨h1, h2, h3, h4, h5, h6, h7⟩ := runSys_inv ops sched _ (initSys_inv ops todo)
  have hfree : (runSys ops sched (initSys todo)).wpc = WPc.L91 ∨
      (runSys ops sched (initSys todo)).wpc = WPc.L94 ∨
      (runSys ops sched (initSys todo)).wpc = WPc.L107 →
      (runSys ops sched (initSys todo)).mutex ≠ some 0 := by
    intro hpc hm
    have hh := h1.mp hm
    rcases hpc with hpc | hpc | hpc <;> rw [hpc] at hh <;> exact Bool.noConfusion hh
  have hacc : ∀ pc : WPc, pc.accesses = true → pc.holds = true := by
    intro pc h; cases pc <;> first | rfl | exact Bool.noConfusion h
  have hpacc : ∀ pc : PPc, pc.accesses = true → pc.holds = true := by
    intro pc h; cases pc <;> first | rfl | exact Bool.noConfusion h
  refine ⟨fun h => h1.mpr (hacc _ h), fun p h => (h2 p).mpr (hpacc _ h),
    stepWorker_shared ops, stepProducer_shared, ?_, ?_, ?_, ?_, h7, h1, hfree⟩
  · intro p ⟨hw, hp⟩
    have := (h1.mpr hw).symm.trans ((h2 p).mpr hp)
    injection this with he
    omega
  · intro p q hpq ⟨hp, hq⟩
    have := ((h2 p).mpr hp).symm.trans ((h2 q).mpr hq)
    injection this with he
    omega
  · intro hpc
    rcases hpc with hpc | hpc
    · exact h4 (Or.inr (Or.inr hpc))
    · obtain ⟨t, _, hh⟩ := h5 (Or.inr (Or.inr (Or.inr hpc)))
      exact ne_nil_of_head? _ _ hh
  · intro hpc
    obtain ⟨t, ht, hh⟩ := h5 (Or.inr (Or.inr (Or.inr hpc)))
    obtain ⟨t2, ht2, hl⟩ := h6 (Or.inr hpc)
    rw [ht] at ht2
    injection ht2 with ht2
    subst ht2
    exact ⟨t, hh, hl⟩

/-- Witness of C10: at the end of `sampleSchedule` the worker stands at line 108 owning
the mutex, while producer 0 waits at line 124, with the task it logged at the front of the
queue and the task that producer 1 emplaced after the emptiness check behind it; two steps
earlier the worker stood at line 107 without the mutex. -/
theorem C10_lock_discipline_witness :
    (runSys fixOps sampleSchedule (initSys sampleTodo)).wpc = WPc.L108 ∧
    (runSys fixOps sampleSchedule (initSys sampleTodo)).mutex = some 0 ∧
    ((runSys fixOps sampleSchedule (initSys sampleTodo)).producers 0).pc = PPc.L124 ∧
    (runSys fixOps sampleSchedule (initSys sampleTodo)).server.taskQueue
      = [(Task.Pow, some 200000, some 300000), (Task.Sqrt, some 900000, some 0)] ∧
    (runSys fixOps sampleSchedule (initSys sampleTodo)).server.taskQueue ≠ [] ∧
    (∃ t, (runSys fixOps sampleSchedule (initSys sampleTodo)).server.taskQueue.head? = some t ∧
      (runSys fixOps sampleSchedule (initSys sampleTodo)).server.results.getLast?
        = some (resultOf fixOps t)) ∧
    (runSys fixOps (sampleSchedule.take 16) (initSys sampleTodo)).wpc = WPc.L107 ∧
    (runSys fixOps (sampleSchedule.take 16) (initSys sampleTodo)).mutex ≠ some 0 :=
  ⟨by decide,
   (C10_lock_discipline fixOps sampleTodo sampleSchedule).1 (by decide),
   by decide, by decide,
   (C10_lock_discipline fixOps sampleTodo sampleSchedule).2.2.2.2.2.2.1
     (Or.inr (by decide)),
   (C10_lock_discipline fixOps sampleTodo sampleSchedule).2.2.2.2.2.2.2.1 (by decide),
   by decide,
   (C10_lock_discipline fixOps sampleTodo (sampleSchedule.take 16)).2.2.2.2.2.2.2.2.2.2
     (Or.inr (Or.inr (by decide)))⟩

end TaskQueue
